import Mathlib

set_option maxRecDepth 4000000

/-!
Shallow embedding of the constraint-based timetable generator
(`timetable_generator.py` and `run_timetable_system.py`).

The CP-SAT layer is external to the repository; following the structure of
the source, the model built by `generate_timetable` is embedded as the list
of linear constraints it posts over Boolean decision variables
`x[t, c, d, s, r]`, and "a produced schedule" is an assignment of the
created variables that satisfies every posted constraint (the solver
returns exactly such assignments).  The decode step (`print_timetable` /
`save_timetable_to_csv`) is embedded as `matKeys` / `scheduleRows`.
-/

/-- Key of one decision variable `x[t, c, d, s, r]` (indices into the
admitted teacher, course, day, slot and room ranges). -/
structure VKey where
  t : Nat
  c : Nat
  d : Nat
  s : Nat
  r : Nat
deriving DecidableEq, Repr

/-- Constructor constant `self.days`. -/
def days : List String := ["Monday", "Tuesday", "Wednesday", "Thursday", "Friday"]

/-- Constructor constant `self.num_days = len(self.days)`. -/
def numDays : Nat := days.length

/-- Constructor constant `self.slots_per_day = 13`. -/
def slotsPerDay : Nat := 13

/-- Constructor constant `self.lunch_slots = [5, 6, 7]`. -/
def lunchSlots : List Nat := [5, 6, 7]

/-- Constructor constant `self.max_teacher_slots_per_day = 5`. -/
def maxTeacherSlotsPerDay : Nat := 5

/-- Constructor constant `self.slot_times` (1-indexed slot to printed time
range, verbatim from the source). -/
def slotTimes : Nat → String
  | 1 => "08:00 - 09:00"
  | 2 => "09:00 - 09:50"
  | 3 => "09:50 - 10:40"
  | 4 => "10:40 - 11:30"
  | 5 => "11:30 - 12:20"
  | 6 => "12:20 - 01:10"
  | 7 => "01:10 - 02:00"
  | 8 => "02:00 - 02:50"
  | 9 => "02:50 - 03:40"
  | 10 => "03:40 - 04:30"
  | 11 => "04:30 - 05:20"
  | 12 => "05:20 - 06:10"
  | 13 => "06:10 - 07:00"
  | _ => ""

/-- State of a `TimetableGenerator` after `load_data` (the fields that
`generate_timetable` reads).  Maps are embedded as total functions with the
same defaults the source uses with `dict.get`.  `techlounge` is initialized
to an empty set by the constructor and never populated by `load_data`; the
field is kept because `generate_timetable` reads it. -/
structure Inst where
  teachers : List String
  courses : List String
  labCourses : List String
  rooms : List String
  labRooms : List String
  techlounge : List String
  teacherCoursesOf : String → List String
  courseDeptOf : String → Option String
  teacherDeptOf : String → Option String
  deptIdToName : String → Option String
  deptNameToId : String → Option String

/-- Stable ascending insertion used to embed Python `sorted` (which is a
stable ascending sort; `List.mergeSort` does not reduce in the kernel, so
an explicitly structural sort is used). -/
def insertAsc (le : α → α → Bool) (a : α) : List α → List α
  | [] => [a]
  | b :: l => if le a b then a :: b :: l else b :: insertAsc le a l

/-- Stable ascending sort embedding Python `sorted`. -/
def sortAsc (le : α → α → Bool) : List α → List α
  | [] => []
  | a :: l => insertAsc le a (sortAsc le l)

/-- Code-point lexicographic order on character lists, the comparison
Python uses for strings. -/
def charListLt : List Char → List Char → Bool
  | [], [] => false
  | [], _ :: _ => true
  | _ :: _, [] => false
  | a :: as, b :: bs =>
    if a.toNat < b.toNat then true
    else if b.toNat < a.toNat then false
    else charListLt as bs

/-- Python string strict order (code-point lexicographic). -/
def strLtB (a b : String) : Bool := charListLt a.toList b.toList

/-- Python string non-strict order. -/
def strLeB (a b : String) : Bool := !(strLtB b a)

/-- Subject area of a course code: `course_id[:2]` when the code has at
least two characters (`load_data` only records it in that case). -/
def subjectArea (course : String) : Option String :=
  if 2 ≤ course.length then some (course.take 2) else none

/-- Course year: `int(course[2:4]) // 10` when `len(course) >= 4` and the
two characters are decimal digits, else 0 (`generate_timetable`).  The
value of the two-digit decimal string is `10*d2 + d3`. -/
def courseYearOf (course : String) : Nat :=
  let cs := course.toList
  if 4 ≤ cs.length && (cs.getD 2 ' ').isDigit && (cs.getD 3 ' ').isDigit then
    (10 * ((cs.getD 2 ' ').toNat - 48) + ((cs.getD 3 ' ').toNat - 48)) / 10
  else 0

/-- Problem-size reduction performed at the top of `generate_timetable`
when `reduced_problem` is set: at most 100 courses, teachers restricted to
those retaining an assigned course (at most 200), at most 50 rooms of
which at most 20 lab rooms (lab rooms sorted, as `sorted(list(set))`). -/
def reduceInst (inst : Inst) : Inst :=
  let courses100 := inst.courses.take 100
  let labCourses100 := inst.labCourses.filter (fun c => decide (c ∈ courses100))
  let tcOf : String → List String :=
    fun te => (inst.teacherCoursesOf te).filter (fun c => decide (c ∈ courses100))
  let activeTeachers := inst.teachers.filter (fun te => !(tcOf te).isEmpty)
  let teachers200 := activeTeachers.take 200
  let labRoomCount := min 20 inst.labRooms.dedup.length
  let labRoomsList := (sortAsc strLeB inst.labRooms.dedup).take labRoomCount
  let regularRoomsList :=
    (inst.rooms.filter (fun r => decide (r ∉ inst.labRooms))).take (50 - labRoomCount)
  { inst with
    courses := courses100
    labCourses := labCourses100
    teacherCoursesOf := tcOf
    teachers := teachers200
    rooms := labRoomsList ++ regularRoomsList
    labRooms := labRoomsList }

/-- Keyword parameters of `generate_timetable` (the solver timeout does not
affect which constraints are posted and is omitted). -/
structure Params where
  reduced : Bool
  relaxed : Bool
  enableLunch : Bool
  enableLabConsecutive : Bool
  enableStudentConflicts : Bool
  minCourseInstances : Nat
  enableStaggered : Bool
deriving DecidableEq, Repr

/-- Rooms not classified lab or techlounge (`regular_rooms`). -/
def regularRooms (S : Inst) : List String :=
  S.rooms.filter (fun r => decide (r ∉ S.labRooms) && decide (r ∉ S.techlounge))

/-- Admitted lab rooms in catalog order (`lab_rooms` recomputed inside
`generate_timetable`). -/
def labRoomsL (S : Inst) : List String :=
  S.rooms.filter (fun r => decide (r ∈ S.labRooms))

/-- Admitted techlounge rooms (`tech_rooms`; always empty in practice). -/
def techRoomsL (S : Inst) : List String :=
  S.rooms.filter (fun r => decide (r ∈ S.techlounge))

/-- Combined room list `all_rooms = regular_rooms + lab_rooms + tech_rooms`. -/
def allRooms (S : Inst) : List String := regularRooms S ++ labRoomsL S ++ techRoomsL S

/-- Number of admitted teachers. -/
def numTeachers (S : Inst) : Nat := S.teachers.length

/-- Number of admitted courses. -/
def numCourses (S : Inst) : Nat := S.courses.length

/-- Number of rooms in the combined list. -/
def numRooms (S : Inst) : Nat := (allRooms S).length

/-- Teacher id at an index (`self.teachers[t]`). -/
def teacherAt (S : Inst) (t : Nat) : String := S.teachers.getD t ""

/-- Course id at an index (`self.courses[c]`). -/
def courseAt (S : Inst) (c : Nat) : String := S.courses.getD c ""

/-- Per-teacher valid course indices
(`self.valid_teacher_courses[t]`, the indices of the courses assigned to
teacher `t`, in catalog order). -/
def validTeacherCourses (S : Inst) (t : Nat) : List Nat :=
  (List.range (numCourses S)).filter
    (fun c => decide (courseAt S c ∈ S.teacherCoursesOf (teacherAt S t)))

/-- Per-course valid room indices (`self.valid_rooms[c]`): lab courses get
the lab-room index range, falling back to the regular rooms when no lab
room is admitted; other courses get the regular-room index range. -/
def validRoomsFor (S : Inst) (c : Nat) : List Nat :=
  if courseAt S c ∈ S.labCourses then
    let lr := (List.range (labRoomsL S).length).map (fun i => (regularRooms S).length + i)
    if lr = [] then List.range (regularRooms S).length else lr
  else List.range (regularRooms S).length

/-- Reduced number of days, `min(4, self.num_days)` (computed regardless
of the `reduced_problem` flag). -/
def reducedDays : Nat := min 4 numDays

/-- Reduced number of slots, `min(8, self.slots_per_day)` (computed
regardless of the `reduced_problem` flag). -/
def reducedSlots : Nat := min 8 slotsPerDay

/-- Courses of teacher `t` for which the variable-creation loop runs
(`courses_to_include`): under reduction a teacher with more than five
valid courses is capped to the first five in sorted order. -/
def includeCourses (S : Inst) (p : Params) (t : Nat) : List Nat :=
  if p.reduced && decide (5 < (validTeacherCourses S t).length) then
    (sortAsc Nat.ble (validTeacherCourses S t)).take 5
  else validTeacherCourses S t

/-- Value of the loop variable `courses_to_include` after the
variable-creation loop finishes: the include list of the last teacher
(the constraint loops that follow read this leaked loop variable).  When
the teacher range is empty the source never binds `courses_to_include`;
its first unguarded read (the course-exclusivity loop) then raises
NameError if any course remains, which `generateRun` models as a crash.
The placeholder value [] used here is never consulted on a run that does
not crash: every read sits under a loop over the teacher range or the
course range, both empty in the remaining zero-teacher, zero-course
case. -/
def lastIncludeCourses (S : Inst) (p : Params) : List Nat :=
  match numTeachers S with
  | 0 => []
  | n + 1 => includeCourses S p n

/-- Whether the key `(t, c, d, s, r)` is in the dictionary `x` of created
decision variables: the creation loops run over teachers, their include
lists, the reduced day and slot ranges, and (when non-empty) the valid
rooms of the course.  This is the direct characterization of the key set
built by those loops; `mem_varKeys` below proves it equal to membership in
the loop-built key list `varKeys`. -/
def createdB (S : Inst) (p : Params) (k : VKey) : Bool :=
  decide (k.t < numTeachers S) && decide (k.c ∈ includeCourses S p k.t) &&
  decide (k.d < reducedDays) && decide (k.s < reducedSlots) &&
  decide (k.r ∈ validRoomsFor S k.c)

/-- Keys of the decision variables in creation order (the loop nest of
`generate_timetable` that fills the dictionary `x`). -/
def varKeys (S : Inst) (p : Params) : List VKey :=
  (List.range (numTeachers S)).flatMap fun t =>
    (includeCourses S p t).flatMap fun c =>
      (List.range reducedDays).flatMap fun d =>
        (List.range reducedSlots).flatMap fun s =>
          if validRoomsFor S c ≠ [] then
            (validRoomsFor S c).map (fun r => ⟨t, c, d, s, r⟩)
          else []

/-- Value a Boolean assignment gives to a variable reference: 1 when the
variable was created and assigned true, else 0 (`x.get(key, 0)` yields the
constant 0 for keys that were never created). -/
def solVal (S : Inst) (p : Params) (sol : VKey → Bool) (k : VKey) : Nat :=
  if createdB S p k && sol k then 1 else 0

/-- One linear constraint posted with `model.Add`: a sum of variables
bounded above, bounded below, or a binary inequality between two
variables. -/
inductive Constr where
  | le (vs : List VKey) (bound : Nat)
  | ge (vs : List VKey) (bound : Nat)
  | geVar (hi lo : VKey)
deriving Repr

/-- Satisfaction of one posted constraint by an assignment. -/
def constrHolds (val : VKey → Nat) : Constr → Prop
  | .le vs bound => (vs.map val).sum ≤ bound
  | .ge vs bound => bound ≤ (vs.map val).sum
  | .geVar hi lo => val lo ≤ val hi

instance instDecConstrHolds (val : VKey → Nat) : (cn : Constr) → Decidable (constrHolds val cn)
  | .le _ _ => inferInstanceAs (Decidable (_ ≤ _))
  | .ge _ _ => inferInstanceAs (Decidable (_ ≤ _))
  | .geVar _ _ => inferInstanceAs (Decidable (_ ≤ _))

/-- Constraint 1 of the source: for each teacher, day and slot, the sum
over courses and rooms is at most 1.  Faithfully to the source, the inner
course loop filters `self.valid_teacher_courses[t]` through the leaked
loop variable `courses_to_include` (the include list of the last teacher),
and uses `x.get(key, 0)`, so references to never-created keys contribute
the constant 0. -/
def teacherSlotConstrs (S : Inst) (p : Params) : List Constr :=
  (List.range (numTeachers S)).flatMap fun t =>
    (List.range reducedDays).flatMap fun d =>
      (List.range reducedSlots).map fun s =>
        .le (((validTeacherCourses S t).filter
                (fun c => decide (c ∈ lastIncludeCourses S p))).flatMap
              fun c => (validRoomsFor S c).map fun r => ⟨t, c, d, s, r⟩) 1

/-- Constraint 2 of the source: for each course in the leaked
`courses_to_include`, day and slot, at most one (teacher, room) teaches
it; posted only when the collected variable list is non-empty. -/
def courseSlotConstrs (S : Inst) (p : Params) : List Constr :=
  ((List.range (numCourses S)).filter
      (fun c => decide (c ∈ lastIncludeCourses S p))).flatMap fun c =>
    (List.range reducedDays).flatMap fun d =>
      (List.range reducedSlots).filterMap fun s =>
        let vs := (List.range (numTeachers S)).flatMap fun t =>
          if c ∈ validTeacherCourses S t then
            ((validRoomsFor S c).map fun r => (⟨t, c, d, s, r⟩ : VKey)).filter
              (createdB S p)
          else []
        if vs = [] then none else some (.le vs 1)

/-- Constraint 3 of the source: for each room, day and slot, at most one
(teacher, course) uses the room; posted when non-empty. -/
def roomSlotConstrs (S : Inst) (p : Params) : List Constr :=
  (List.range (numRooms S)).flatMap fun r =>
    (List.range reducedDays).flatMap fun d =>
      (List.range reducedSlots).filterMap fun s =>
        let vs := (List.range (numTeachers S)).flatMap fun t =>
          (validTeacherCourses S t).flatMap fun c =>
            if r ∈ validRoomsFor S c then
              ([(⟨t, c, d, s, r⟩ : VKey)]).filter (createdB S p)
            else []
        if vs = [] then none else some (.le vs 1)

/-- Variables collected for constraint 4 for one (teacher, day). -/
def dailyVars (S : Inst) (p : Params) (t d : Nat) : List VKey :=
  (validTeacherCourses S t).flatMap fun c =>
    (List.range reducedSlots).flatMap fun s =>
      ((validRoomsFor S c).map fun r => (⟨t, c, d, s, r⟩ : VKey)).filter (createdB S p)

/-- Constraint 4 of the source: at most `max_teacher_slots_per_day = 5`
entries per (teacher, day); posted when non-empty. -/
def dailyLoadConstrs (S : Inst) (p : Params) : List Constr :=
  (List.range (numTeachers S)).flatMap fun t =>
    (List.range reducedDays).filterMap fun d =>
      let vs := dailyVars S p t d
      if vs = [] then none else some (.le vs maxTeacherSlotsPerDay)

/-- Lunch slots admitted by the reduced grid:
`[s for s in self.lunch_slots if s < reduced_slots]`.  Note that the
values 5, 6, 7 are used directly as 0-based slot indices of the model. -/
def admittedLunchSlots : List Nat := lunchSlots.filter (fun s => decide (s < reducedSlots))

/-- Variables collected for the lunch constraint for one (teacher, day). -/
def lunchVars (S : Inst) (p : Params) (t d : Nat) : List VKey :=
  (validTeacherCourses S t).flatMap fun c =>
    admittedLunchSlots.flatMap fun s =>
      ((validRoomsFor S c).map fun r => (⟨t, c, d, s, r⟩ : VKey)).filter (createdB S p)

/-- Lunch-break constraint (posted when `not relaxed_constraints or
enable_lunch_breaks`): for each (teacher, day), at most
`len(lunch_slots) - 1` of the admitted lunch slots are used. -/
def lunchConstrs (S : Inst) (p : Params) : List Constr :=
  if !p.relaxed || p.enableLunch then
    if admittedLunchSlots ≠ [] then
      (List.range (numTeachers S)).flatMap fun t =>
        (List.range reducedDays).filterMap fun d =>
          let vs := lunchVars S p t d
          if vs = [] then none
          else some (.le vs (admittedLunchSlots.length - 1))
    else []
  else []

/-- Lab course indices capped at `n` (the source limits consecutive-slot
constraints to 15 lab courses and the fallback constraint to 20). -/
def labCourseIdx (S : Inst) (n : Nat) : List Nat :=
  ((List.range (numCourses S)).filter
    (fun c => decide (courseAt S c ∈ S.labCourses))).take n

/-- Lab-course constraints: when `not relaxed_constraints or
enable_lab_consecutive`, for the first 15 lab courses and every compatible
(teacher, room), each day and each start slot below the last, post
`x[t, c, d, s+1, r] >= x[t, c, d, s, r]` whenever both variables exist.
Otherwise, for the first 20 lab courses, require the sum of the course's
variables over start slots below the last to be at least 1 (posted when
non-empty). -/
def labConstrs (S : Inst) (p : Params) : List Constr :=
  if !p.relaxed || p.enableLabConsecutive then
    (labCourseIdx S 15).flatMap fun c =>
      (List.range (numTeachers S)).flatMap fun t =>
        if c ∈ validTeacherCourses S t then
          (List.range reducedDays).flatMap fun d =>
            (List.range (reducedSlots - 1)).flatMap fun s =>
              (validRoomsFor S c).filterMap fun r =>
                if createdB S p ⟨t, c, d, s, r⟩ && createdB S p ⟨t, c, d, s + 1, r⟩ then
                  some (.geVar ⟨t, c, d, s + 1, r⟩ ⟨t, c, d, s, r⟩)
                else none
        else []
  else
    (labCourseIdx S 20).filterMap fun c =>
      let vs := (List.range (numTeachers S)).flatMap fun t =>
        if c ∈ validTeacherCourses S t then
          (List.range reducedDays).flatMap fun d =>
            (List.range (reducedSlots - 1)).flatMap fun s =>
              ((validRoomsFor S c).map fun r => (⟨t, c, d, s, r⟩ : VKey)).filter
                (createdB S p)
        else []
      if vs = [] then none else some (.ge vs 1)

/-- Effective minimum course instances: `min_course_instances`, overridden
to 2 when `relaxed_constraints` is off. -/
def effectiveMinInstances (p : Params) : Nat :=
  if !p.relaxed then 2 else p.minCourseInstances

/-- All created variables of one course (`course_slots` of constraint
"each course scheduled multiple times"). -/
def courseVars (S : Inst) (p : Params) (c : Nat) : List VKey :=
  (List.range (numTeachers S)).flatMap fun t =>
    if c ∈ validTeacherCourses S t then
      (List.range reducedDays).flatMap fun d =>
        (List.range reducedSlots).flatMap fun s =>
          ((validRoomsFor S c).map fun r => (⟨t, c, d, s, r⟩ : VKey)).filter (createdB S p)
    else []

/-- Minimum-instances constraint: for each course whose collected variable
list is non-empty and has length at least the effective minimum, the sum
is at least that minimum. -/
def minInstanceConstrs (S : Inst) (p : Params) : List Constr :=
  (List.range (numCourses S)).filterMap fun c =>
    let vs := courseVars S p c
    if !vs.isEmpty && decide (effectiveMinInstances p ≤ vs.length) then
      some (.ge vs (effectiveMinInstances p))
    else none

/-- Append a course index to the group of a (department, year) key,
creating the group on first encounter (defaultdict insertion order). -/
def addToGroups (gs : List ((String × Nat) × List Nat)) (key : String × Nat) (c : Nat) :
    List ((String × Nat) × List Nat) :=
  match gs with
  | [] => [(key, [c])]
  | (k, l) :: rest =>
    if k = key then (k, l ++ [c]) :: rest else (k, l) :: addToGroups rest key c

/-- Grouping `self.dept_year_courses`: course indices grouped by
(department name, course year), skipping empty departments and year 0. -/
def deptYearGroups (S : Inst) : List ((String × Nat) × List Nat) :=
  (List.range (numCourses S)).foldl
    (fun gs c =>
      let dept := (S.courseDeptOf (courseAt S c)).getD ""
      let year := courseYearOf (courseAt S c)
      if dept ≠ "" ∧ 0 < year then addToGroups gs (dept, year) c else gs)
    []

/-- Student cohort-conflict constraint (posted when `not
relaxed_constraints or enable_student_conflicts`): for each (department,
year) group with more than one course, each day and slot, at most one of
the group's courses is scheduled (posted when non-empty). -/
def studentConflictConstrs (S : Inst) (p : Params) : List Constr :=
  if !p.relaxed || p.enableStudentConflicts then
    (deptYearGroups S).flatMap fun g =>
      if 1 < g.2.length then
        (List.range reducedDays).flatMap fun d =>
          (List.range reducedSlots).filterMap fun s =>
            let vs := g.2.flatMap fun c =>
              (List.range (numTeachers S)).flatMap fun t =>
                if c ∈ validTeacherCourses S t then
                  ((validRoomsFor S c).map fun r => (⟨t, c, d, s, r⟩ : VKey)).filter
                    (createdB S p)
                else []
            if vs = [] then none else some (.le vs 1)
      else []
  else []

/-- Staggered-scheduling constraint (posted when
`enable_staggered_schedule`): for each day and slot, the total number of
classes is at most `min(25, num_rooms // 2)` (posted when non-empty). -/
def staggerConstrs (S : Inst) (p : Params) : List Constr :=
  if p.enableStaggered then
    (List.range reducedDays).flatMap fun d =>
      (List.range reducedSlots).filterMap fun s =>
        let vs := (List.range (numTeachers S)).flatMap fun t =>
          (validTeacherCourses S t).flatMap fun c =>
            ((validRoomsFor S c).map fun r => (⟨t, c, d, s, r⟩ : VKey)).filter
              (createdB S p)
        if vs = [] then none else some (.le vs (min 25 (numRooms S / 2)))
  else []

/-- All constraints `generate_timetable` posts, in source order. -/
def modelConstraints (S : Inst) (p : Params) : List Constr :=
  teacherSlotConstrs S p ++ courseSlotConstrs S p ++ roomSlotConstrs S p ++
  dailyLoadConstrs S p ++ lunchConstrs S p ++ labConstrs S p ++
  minInstanceConstrs S p ++ studentConflictConstrs S p ++ staggerConstrs S p

/-- State actually fed to the model builder: the loaded state, reduced
first when `reduced_problem` is set. -/
def prep (inst : Inst) (p : Params) : Inst :=
  if p.reduced then reduceInst inst else inst

/-- An assignment satisfies the model when every posted constraint holds. -/
def satisfies (S : Inst) (p : Params) (sol : VKey → Bool) : Prop :=
  ∀ cn ∈ modelConstraints S p, constrHolds (solVal S p sol) cn

instance instDecSatisfies (S : Inst) (p : Params) (sol : VKey → Bool) :
    Decidable (satisfies S p sol) :=
  List.decidableBAll _ _

/-- Satisfaction of the model that `generate_timetable` builds from the
loaded state under the given parameters. -/
def genSatisfies (inst : Inst) (p : Params) (sol : VKey → Bool) : Prop :=
  satisfies (prep inst p) p sol

/-- One row of the produced schedule (`print_timetable` entry plus the
day/slot/time columns `save_timetable_to_csv` adds). -/
structure ScheduleEntry where
  day : String
  slot : Nat
  time : String
  course : String
  teacher : String
  dept : String
  room : String
deriving DecidableEq, Repr

/-- Keys of the variables the Materializer decodes, in emission order:
`print_timetable` iterates all days, all 13 slots, all teachers, each
teacher's valid courses and each course's valid rooms, keeping the keys
that were created and assigned 1; `save_timetable_to_csv` flattens in the
same order. -/
def matKeys (S : Inst) (p : Params) (sol : VKey → Bool) : List VKey :=
  (List.range numDays).flatMap fun d =>
    (List.range slotsPerDay).flatMap fun s =>
      (List.range (numTeachers S)).flatMap fun t =>
        (validTeacherCourses S t).flatMap fun c =>
          ((validRoomsFor S c).map fun r => (⟨t, c, d, s, r⟩ : VKey)).filter
            (fun k => createdB S p k && sol k)

/-- Decode one key into a schedule row (fields as `print_timetable` and
`save_timetable_to_csv` fill them; slots are printed 1-indexed). -/
def mkEntry (S : Inst) (k : VKey) : ScheduleEntry :=
  let teacher := teacherAt S k.t
  { day := days.getD k.d ""
    slot := k.s + 1
    time := slotTimes (k.s + 1)
    course := courseAt S k.c
    teacher := teacher
    dept := (S.deptIdToName ((S.teacherDeptOf teacher).getD "")).getD ""
    room := (allRooms S).getD k.r "" }

/-- The flattened row stream of the produced schedule. -/
def scheduleRows (S : Inst) (p : Params) (sol : VKey → Bool) : List ScheduleEntry :=
  (matKeys S p sol).map (mkEntry S)

/-- Keys decoded from the model `generate_timetable` builds. -/
def genMatKeys (inst : Inst) (p : Params) (sol : VKey → Bool) : List VKey :=
  matKeys (prep inst p) p sol

/-- Rows produced by a run of `generate_timetable`. -/
def generateRows (inst : Inst) (p : Params) (sol : VKey → Bool) : List ScheduleEntry :=
  scheduleRows (prep inst p) p sol

/-- Outcome the CP solver can report (`cp_model` status values that the
source inspects). -/
inductive SolverStatus where
  | optimal | feasible | infeasible | modelInvalid | unknown
deriving DecidableEq, Repr

/-- Result of the tail of `generate_timetable`: how many decision
variables were created, whether the constraint loops crashed, whether
`solver.Solve(model)` was called, and the Boolean result returned to the
caller (True exactly when the status is OPTIMAL or FEASIBLE). -/
structure GenOutcome where
  numVars : Nat
  solverInvoked : Bool
  crashed : Bool
  success : Bool
deriving DecidableEq, Repr

/-- Tail of `generate_timetable`: builds the model from the (optionally
reduced) state and invokes the external solver on it.  `solver.Solve` is
called unconditionally after the constraint loops complete; however, when
the teacher range is empty the variable-creation loop never binds the
loop variable `courses_to_include`, and if any course remains the first
unguarded read of it in the course-exclusivity loop raises NameError, so
such a run dies before the solver is reached. -/
def generateRun (inst : Inst) (p : Params)
    (solverAnswer : List Constr → SolverStatus) : GenOutcome :=
  let S := prep inst p
  if numTeachers S = 0 ∧ 0 < numCourses S then
    { numVars := (varKeys S p).length
      solverInvoked := false
      crashed := true
      success := false }
  else
    let status := solverAnswer (modelConstraints S p)
    { numVars := (varKeys S p).length
      solverInvoked := true
      crashed := false
      success := status = SolverStatus.optimal ∨ status = SolverStatus.feasible }

/-- Constraint modes in order of strictness
(`run_timetable_system.main`). -/
def constraintModes : List String := ["relaxed", "balanced", "hybrid", "real"]

/-- Adaptive retry loop of `run_timetable_system.main`: starting from the
chosen mode, try progressively looser modes, at most
`min(max_attempts, index + 1)` attempts, stopping at the first success;
the resulting `timetable` flag is true when some tried attempt
succeeded. -/
def adaptiveAttempts (startIdx maxAttempts : Nat) (solve : String → Bool) : Bool :=
  (List.range (min maxAttempts (startIdx + 1))).any fun i =>
    solve (constraintModes.getD (startIdx - i) "")

/-- Outcome of one `run_timetable_system.main` run: the process exit
status, whether the generation phase reported a feasible timetable, and
whether the run died on an uncaught exception. -/
structure MainResult where
  exitCode : Nat
  feasible : Bool
  crashed : Bool
deriving DecidableEq, Repr

/-- Control flow of `run_timetable_system.main` as far as the process exit
status is concerned: `sys.exit(1)` when the data directory is missing.
Otherwise the generation result (adaptive or single-shot) is computed.
When it is falsy, main prints a message and returns normally, so the
interpreter exits 0.  When it is truthy, the visualization call is inside
try/except, but the summary then evaluates
`len(set([t for _, t, _, _, _ in timetable]))` where `timetable` is the
Boolean True returned by `generate_timetable`; iterating a bool raises an
uncaught TypeError and the interpreter exits 1.  The embedding covers
runs where at least one attempt executes: with `--max-attempts 0` in
adaptive mode the source would leave the `timetable` variable unbound
(the CLI default is 3). -/
def mainRun (dataDirPresent adaptive : Bool) (chosenMode : String)
    (maxAttempts : Nat) (solve : String → Bool) : MainResult :=
  if !dataDirPresent then { exitCode := 1, feasible := false, crashed := false }
  else
    let tt :=
      if adaptive && chosenMode ≠ "relaxed" then
        adaptiveAttempts (constraintModes.indexOf chosenMode) maxAttempts solve
      else solve chosenMode
    if tt then { exitCode := 1, feasible := true, crashed := true }
    else { exitCode := 0, feasible := false, crashed := false }

/-- Constraint mode presets of
`run_timetable_system.generate_with_constraint_mode`. -/
inductive CMode where
  | relaxedM | balancedM | hybridM | realM
deriving DecidableEq, Repr

/-- Keyword arguments `generate_with_constraint_mode` passes to
`generate_timetable` for each mode (parameters not passed keep the
declared defaults). -/
def modeParams (m : CMode) (reduced staggered : Bool) : Params :=
  match m with
  | .relaxedM =>
    { reduced := reduced, relaxed := true, enableLunch := false,
      enableLabConsecutive := false, enableStudentConflicts := false,
      minCourseInstances := 1, enableStaggered := staggered }
  | .balancedM =>
    { reduced := reduced, relaxed := true, enableLunch := true,
      enableLabConsecutive := true, enableStudentConflicts := false,
      minCourseInstances := 1, enableStaggered := staggered }
  | .hybridM =>
    { reduced := reduced, relaxed := true, enableLunch := true,
      enableLabConsecutive := true, enableStudentConflicts := true,
      minCourseInstances := 2, enableStaggered := staggered }
  | .realM =>
    { reduced := reduced, relaxed := false, enableLunch := false,
      enableLabConsecutive := false, enableStudentConflicts := false,
      minCourseInstances := 2, enableStaggered := staggered }

/-- Minimum course instances each mode requires: 1 under relaxed and
balanced, 2 under hybrid and real. -/
def modeMinInstances (m : CMode) : Nat :=
  match m with
  | .hybridM | .realM => 2
  | _ => 1

/-- State of the teacher/course assignment maps the loader builds
(`self.teacher_courses`, `self.course_teachers`,
`self.teacher_expertise`). -/
structure AssignState where
  teacherCourses : String → List String
  courseTeachers : String → List String
  teacherExpertise : String → List String

/-- Assignment maps before any assignment is made (defaultdicts). -/
def emptyAssignState : AssignState :=
  { teacherCourses := fun _ => []
    courseTeachers := fun _ => []
    teacherExpertise := fun _ => [] }

/-- Set-insertion of a subject area into a teacher's expertise
(`self.teacher_expertise[teacher].add(...)`). -/
def addExpertise (e : String → List String) (te area : String) : String → List String :=
  fun t => if t = te then (if area ∈ e te then e te else e te ++ [area]) else e t

/-- Attach a teacher to a course unless the pair is already assigned: the
guard `if course_code not in self.teacher_courses[teacher]` makes repeated
assignment a no-op; otherwise the course and teacher are appended to each
other's lists and the course's subject area is promoted into the teacher's
expertise (call sites only pass courses of the catalog, for which the
recorded subject area agrees with `subjectArea`). -/
def assignTeacher (st : AssignState) (te course : String) : AssignState :=
  if course ∈ st.teacherCourses te then st
  else
    { teacherCourses := fun t =>
        if t = te then st.teacherCourses te ++ [course] else st.teacherCourses t
      courseTeachers := fun c =>
        if c = course then st.courseTeachers course ++ [te] else st.courseTeachers c
      teacherExpertise :=
        match subjectArea course with
        | some area => addExpertise st.teacherExpertise te area
        | none => st.teacherExpertise }

/-- One row of the prior-assignments table
(`course_for_the_department_and_thier_faculty.csv`). -/
structure AssignRow where
  courseCode : String
  faculty : String
deriving DecidableEq, Repr

/-- Teachers of a department in catalog order
(`[t for t in self.teachers if self.teacher_dept.get(t) == dept_id]`). -/
def deptTeachersFor (inst : Inst) (deptId : String) : List String :=
  inst.teachers.filter (fun te => decide (inst.teacherDeptOf te = some deptId))

/-- Row condition under which the loader processes a prior-assignment row
(and sets `assignments_loaded`): the course is in the catalog and the
faculty name resolves to a department id. -/
def rowEligible (inst : Inst) (row : AssignRow) : Bool :=
  decide (row.courseCode ∈ inst.courses) && (inst.deptNameToId row.faculty).isSome

/-- Inference-mode processing of one table row: when the row is eligible
and the teaching department has teachers, sample teachers from it (the
source samples `min(2, len(dept_teachers))` without replacement; the
random choice is abstracted by the `sample` oracle) and attach each to the
course. -/
def inferStep (inst : Inst) (sample : AssignRow → List String → List String)
    (st : AssignState) (row : AssignRow) : AssignState :=
  if rowEligible inst row then
    let deptId := (inst.deptNameToId row.faculty).getD ""
    let deptTeachers := deptTeachersFor inst deptId
    if deptTeachers ≠ [] then
      (sample row deptTeachers).foldl (fun s te => assignTeacher s te row.courseCode) st
    else st
  else st

/-- Inference mode: walk the prior-assignments table from the empty
maps. -/
def inferenceRun (inst : Inst) (sample : AssignRow → List String → List String)
    (table : List AssignRow) : AssignState :=
  table.foldl (inferStep inst sample) emptyAssignState

/-- Whether any table row sets `assignments_loaded`. -/
def assignmentsLoaded (inst : Inst) (table : List AssignRow) : Bool :=
  table.any (rowEligible inst)

/-- Append a value to a string-keyed group, creating the group on first
encounter (defaultdict insertion order). -/
def addToAssoc (l : List (String × List String)) (key val : String) :
    List (String × List String) :=
  match l with
  | [] => [(key, [val])]
  | (k, vs) :: rest =>
    if k = key then (k, vs ++ [val]) :: rest else (k, vs) :: addToAssoc rest key val

/-- Append a value to a two-level string-keyed group
(`courses_by_dept_subject[dept_id][subject_area].append(course_id)`). -/
def addToAssoc2 (l : List (String × List (String × List String))) (k1 k2 v : String) :
    List (String × List (String × List String)) :=
  match l with
  | [] => [(k1, [(k2, [v])])]
  | (k, sub) :: rest =>
    if k = k1 then (k, addToAssoc sub k2 v) :: rest
    else (k, sub) :: addToAssoc2 rest k1 k2 v

/-- Synthesis-mode grouping of catalog courses by (department id, subject
area), in catalog insertion order; courses whose department name does not
resolve are skipped as in the source. -/
def coursesByDeptSubject (inst : Inst) : List (String × List (String × List String)) :=
  inst.courses.foldl
    (fun acc course =>
      match inst.courseDeptOf course with
      | some deptName =>
        match inst.deptNameToId deptName with
        | some deptId => addToAssoc2 acc deptId ((subjectArea course).getD "UNKNOWN") course
        | none => acc
      | none => acc)
    []

/-- Sort key order used by synthesis mode:
`key=lambda t: (teacher_load[t], len(self.teacher_courses[t]))`, compared
as ascending tuples (non-strict, so the stable sort keeps the original
order of equal keys). -/
def loadKeyLe (load : String → Nat) (st : AssignState) (a b : String) : Bool :=
  decide (load a < load b ∨
    (load a = load b ∧ (st.teacherCourses a).length ≤ (st.teacherCourses b).length))

/-- Synthesis-mode processing of one course inside a subject group: sort
the candidate teachers by (subject load, total load), take the first
`random.randint(1, min(2, len))` of them (the random draw abstracted by
`pickCount`), and attach each that does not already have the course,
incrementing the local subject load. -/
def synthCourseStep (pickCount : String → Nat) (expertTeachers : List String)
    (acc : AssignState × (String → Nat)) (course : String) :
    AssignState × (String → Nat) :=
  let sorted := sortAsc (loadKeyLe acc.2 acc.1) expertTeachers
  let assigned := sorted.take (pickCount course)
  assigned.foldl
    (fun a te =>
      if course ∈ a.1.teacherCourses te then a
      else (assignTeacher a.1 te course,
            fun x => if x = te then a.2 te + 1 else a.2 x))
    acc

/-- Synthesis-mode processing of one subject group of a department: expert
teachers are the department teachers whose expertise contains the subject
area, falling back to all department teachers; the per-subject load map
starts at zero. -/
def synthSubjectStep (pickCount : String → Nat) (deptTeachers : List String)
    (st : AssignState) (grp : String × List String) : AssignState :=
  let expert0 := deptTeachers.filter (fun te => decide (grp.1 ∈ st.teacherExpertise te))
  let expertTeachers := if expert0 = [] then deptTeachers else expert0
  (grp.2.foldl (synthCourseStep pickCount expertTeachers) (st, fun _ => 0)).1

/-- Synthesis-mode processing of one department group: the candidate pool
is the department's teachers, or, when the department has none and the
global pool is non-empty, a random sample of up to 3 global teachers
(abstracted by `fallbackSample`); nothing happens when the pool is
empty. -/
def synthDeptStep (inst : Inst) (fallbackSample : List String → List String)
    (pickCount : String → Nat) (st : AssignState)
    (grp : String × List (String × List String)) : AssignState :=
  let dt0 := deptTeachersFor inst grp.1
  let deptTeachers :=
    if dt0 = [] ∧ inst.teachers ≠ [] then fallbackSample inst.teachers else dt0
  if deptTeachers ≠ [] then
    grp.2.foldl (synthSubjectStep pickCount deptTeachers) st
  else st

/-- Synthesis mode (`_create_expertise_based_assignments`), from the empty
maps. -/
def synthesisRun (inst : Inst) (fallbackSample : List String → List String)
    (pickCount : String → Nat) : AssignState :=
  (coursesByDeptSubject inst).foldl (synthDeptStep inst fallbackSample pickCount)
    emptyAssignState

/-- Assignment phase of `load_data`: walk the prior-assignments table;
when no row was eligible (in particular when the table is absent), fall
back to synthesis mode. -/
def loadAssignments (inst : Inst) (sample : AssignRow → List String → List String)
    (fallbackSample : List String → List String) (pickCount : String → Nat)
    (table : List AssignRow) : AssignState :=
  if assignmentsLoaded inst table then inferenceRun inst sample table
  else synthesisRun inst fallbackSample pickCount

instance instDecGenSatisfies (inst : Inst) (p : Params) (sol : VKey → Bool) :
    Decidable (genSatisfies inst p sol) :=
  instDecSatisfies (prep inst p) p sol

/-- Strict emission order of the Materializer on variable keys: day index,
then slot, then teacher index, then course index, then room index. -/
def matKeyLt (a b : VKey) : Prop :=
  a.d < b.d ∨ (a.d = b.d ∧ (a.s < b.s ∨ (a.s = b.s ∧ (a.t < b.t ∨ (a.t = b.t ∧
    (a.c < b.c ∨ (a.c = b.c ∧ a.r < b.r)))))))

instance instDecMatKeyLt (a b : VKey) : Decidable (matKeyLt a b) := by
  unfold matKeyLt; infer_instance

/-- Position of a day name in the fixed day list. -/
def dayIndex (d : String) : Nat := days.indexOf d

/-- Modelled from the spec: the canonical emission order the specification
claims, lexicographic on (day, slot, course id, teacher id, room id), with
strings compared code-point lexicographically and days by their position
in the week. -/
def specCanonicalLeB (a b : ScheduleEntry) : Bool :=
  if dayIndex a.day ≠ dayIndex b.day then decide (dayIndex a.day < dayIndex b.day)
  else if a.slot ≠ b.slot then decide (a.slot < b.slot)
  else if a.course ≠ b.course then strLtB a.course b.course
  else if a.teacher ≠ b.teacher then strLtB a.teacher b.teacher
  else strLeB a.room b.room

/-- Pairing property claimed by spec P4: every lab-course entry at slot s
is followed by an entry of the same course, teacher and room (same day) at
slot s+1, or is itself the second element of such a pair. -/
def labPairedProperty (labCourses : List String) (rows : List ScheduleEntry) : Prop :=
  ∀ e ∈ rows, e.course ∈ labCourses →
    (∃ e2 ∈ rows, e2.course = e.course ∧ e2.teacher = e.teacher ∧ e2.room = e.room ∧
      e2.day = e.day ∧ e2.slot = e.slot + 1) ∨
    (∃ e2 ∈ rows, e2.course = e.course ∧ e2.teacher = e.teacher ∧ e2.room = e.room ∧
      e2.day = e.day ∧ e.slot = e2.slot + 1)

instance instDecLabPaired (labCourses : List String) (rows : List ScheduleEntry) :
    Decidable (labPairedProperty labCourses rows) := by
  unfold labPairedProperty; infer_instance

/-- Parameters of an adaptive-profile run under the relaxed preset with
reduction on (the driver default `--reduced`). -/
def pRelaxed : Params := modeParams .relaxedM true false

/-- Parameters of the balanced preset with reduction on. -/
def pBalanced : Params := modeParams .balancedM true false

/-- Failing input for teacher-slot exclusivity: two teachers; teacher 0
teaches two theory courses, teacher 1 teaches only the second one, two
regular rooms.  Because the constraint loop filters through the leaked
`courses_to_include` of the last teacher, teacher 0's first course is not
covered by the exclusivity sum. -/
def inst1 : Inst :=
  { teachers := ["a@x", "b@x"]
    courses := ["CA", "CB"]
    labCourses := []
    rooms := ["R1", "R2"]
    labRooms := []
    techlounge := []
    teacherCoursesOf := fun te =>
      if te = "a@x" then ["CA", "CB"] else if te = "b@x" then ["CB"] else []
    courseDeptOf := fun _ => some "D"
    teacherDeptOf := fun _ => some "1"
    deptIdToName := fun i => if i = "1" then some "D" else none
    deptNameToId := fun n => if n = "D" then some "1" else none }

/-- Assignment double-booking teacher 0 on Monday slot 1: both courses in
different rooms at (day 0, slot 0). -/
def sol1 : VKey → Bool := fun k =>
  decide (k ∈ [(⟨0, 0, 0, 0, 0⟩ : VKey), ⟨0, 1, 0, 0, 1⟩])

/-- Failing input for the lunch-window property: one teacher with three
theory courses and one regular room. -/
def inst2 : Inst :=
  { teachers := ["t@x"]
    courses := ["CA", "CB", "CC"]
    labCourses := []
    rooms := ["R1"]
    labRooms := []
    techlounge := []
    teacherCoursesOf := fun te => if te = "t@x" then ["CA", "CB", "CC"] else []
    courseDeptOf := fun _ => some "D"
    teacherDeptOf := fun _ => some "1"
    deptIdToName := fun i => if i = "1" then some "D" else none
    deptNameToId := fun n => if n = "D" then some "1" else none }

/-- Assignment occupying model slots 4, 5, 6 on Monday, which print as the
1-indexed slots 5, 6 and 7 (11:30-14:00): the posted lunch constraint only
restricts model slots 5, 6, 7 (printed slots 6, 7, 8), so it is
satisfied. -/
def sol2 : VKey → Bool := fun k =>
  decide (k ∈ [(⟨0, 0, 0, 4, 0⟩ : VKey), ⟨0, 1, 0, 5, 0⟩, ⟨0, 2, 0, 6, 0⟩])

/-- Input for the lab-consecutivity claims: one teacher, one lab course,
one lab room. -/
def inst3 : Inst :=
  { teachers := ["t@x"]
    courses := ["CS201"]
    labCourses := ["CS201"]
    rooms := ["L1"]
    labRooms := ["L1"]
    techlounge := []
    teacherCoursesOf := fun te => if te = "t@x" then ["CS201"] else []
    courseDeptOf := fun _ => some "D"
    teacherDeptOf := fun _ => some "1"
    deptIdToName := fun i => if i = "1" then some "D" else none
    deptNameToId := fun n => if n = "D" then some "1" else none }

/-- Assignment scheduling the lab course exactly once, in the last
admitted slot (model slot 7): every posted forward implication
`x[s+1] >= x[s]` holds, yet the single entry has no consecutive
partner. -/
def sol3 : VKey → Bool := fun k => decide (k = (⟨0, 0, 0, 7, 0⟩ : VKey))

/-- Assignment scheduling the lab course in the last two admitted slots
(model slots 6 and 7), a satisfying assignment used as a witness. -/
def sol3w : VKey → Bool := fun k =>
  decide (k ∈ [(⟨0, 0, 0, 6, 0⟩ : VKey), ⟨0, 0, 0, 7, 0⟩])

/-- Input for the emission-order claim: the teacher earlier in the catalog
has the lexicographically larger id and course code. -/
def inst6 : Inst :=
  { teachers := ["b@x", "a@x"]
    courses := ["ZZ1", "AA1"]
    labCourses := []
    rooms := ["R1", "R2"]
    labRooms := []
    techlounge := []
    teacherCoursesOf := fun te =>
      if te = "b@x" then ["ZZ1"] else if te = "a@x" then ["AA1"] else []
    courseDeptOf := fun _ => some "D"
    teacherDeptOf := fun _ => some "1"
    deptIdToName := fun i => if i = "1" then some "D" else none
    deptNameToId := fun n => if n = "D" then some "1" else none }

/-- Assignment putting both courses into Monday slot 1 in different
rooms. -/
def sol6 : VKey → Bool := fun k =>
  decide (k ∈ [(⟨0, 0, 0, 0, 0⟩ : VKey), ⟨1, 1, 0, 0, 1⟩])

/-- Empty catalog: no teachers, courses or rooms, hence zero decision
variables. -/
def instE : Inst :=
  { teachers := []
    courses := []
    labCourses := []
    rooms := []
    labRooms := []
    techlounge := []
    teacherCoursesOf := fun _ => []
    courseDeptOf := fun _ => none
    teacherDeptOf := fun _ => none
    deptIdToName := fun _ => none
    deptNameToId := fun _ => none }

/-- Catalog with no teachers but one course: the variable-creation loop
never binds `courses_to_include` and the course-exclusivity loop raises
NameError. -/
def instC : Inst :=
  { teachers := []
    courses := ["CA"]
    labCourses := []
    rooms := ["R1"]
    labRooms := []
    techlounge := []
    teacherCoursesOf := fun _ => []
    courseDeptOf := fun _ => some "D"
    teacherDeptOf := fun _ => none
    deptIdToName := fun i => if i = "1" then some "D" else none
    deptNameToId := fun n => if n = "D" then some "1" else none }

/-- Trivial satisfiable input: one teacher, one theory course, one regular
room. -/
def instT : Inst :=
  { teachers := ["t@x"]
    courses := ["MA101"]
    labCourses := []
    rooms := ["R1"]
    labRooms := []
    techlounge := []
    teacherCoursesOf := fun te => if te = "t@x" then ["MA101"] else []
    courseDeptOf := fun _ => some "D"
    teacherDeptOf := fun _ => some "1"
    deptIdToName := fun i => if i = "1" then some "D" else none
    deptNameToId := fun n => if n = "D" then some "1" else none }

/-- Assignment with a single entry on Monday slot 1. -/
def solT : VKey → Bool := fun k => decide (k = (⟨0, 0, 0, 0, 0⟩ : VKey))

/-- Invariant linking the two assignment maps: a teacher holds a course
exactly when the course holds the teacher, and no list contains
duplicates. -/
def AssignInv (st : AssignState) : Prop :=
  (∀ te c, c ∈ st.teacherCourses te ↔ te ∈ st.courseTeachers c) ∧
  (∀ te, (st.teacherCourses te).Nodup) ∧
  (∀ c, (st.courseTeachers c).Nodup)

/-- Claim C1 (code bug): teacher-slot exclusivity fails on the code.  At
the failing input `inst1` under the relaxed profile, the assignment `sol1`
satisfies every constraint the model posts, yet the produced schedule has
two entries for teacher "a@x" on Monday slot 1: the exclusivity loop
filters teacher 0's courses through the leaked `courses_to_include` of the
last teacher, so the sum misses course 0. -/
theorem teacher_slot_exclusivity_violated_at_failing_input :
    genSatisfies inst1 pRelaxed sol1 ∧
    (generateRows inst1 pRelaxed sol1).countP
      (fun e => e.teacher == "a@x" && e.day == "Monday" && e.slot == 1) = 2 := by
  decide

/-- Claim C2 (code bug): at the failing input `inst2` under the balanced
profile, the assignment `sol2` satisfies every posted constraint, yet
teacher "t@x" is scheduled on Monday in all three printed lunch-window
slots 5, 6 and 7 (11:30-14:00): the code applies the 1-indexed constants
`lunch_slots = [5, 6, 7]` directly as 0-based model slot indices, so the
posted constraint actually frees one of the printed slots 6, 7, 8. -/
theorem lunch_window_occupied_at_failing_input :
    genSatisfies inst2 pBalanced sol2 ∧
    ([5, 6, 7].all fun sl =>
      (generateRows inst2 pBalanced sol2).any fun e =>
        e.teacher == "t@x" && e.day == "Monday" && e.slot == sl) = true := by
  decide

/-- Claim C3 counterexample: at `inst3` under the balanced profile, the
assignment `sol3` satisfies every posted constraint (including every
posted forward implication for the lab course), yet the schedule consists
of a single lab entry in the last admitted slot, which is neither followed
by a same-course/teacher/room entry at the next slot nor the second
element of such a pair. -/
theorem lab_entry_unpaired_counterexample :
    genSatisfies inst3 pBalanced sol3 ∧
    (generateRows inst3 pBalanced sol3).length = 1 ∧
    ¬ labPairedProperty inst3.labCourses (generateRows inst3 pBalanced sol3) := by
  decide

/-- Claim C6 counterexample: at `inst6` under the relaxed profile, the
assignment `sol6` satisfies every posted constraint, but the emitted row
stream is not sorted by the claimed canonical
(day, slot, course_id, teacher_id, room_id) lexicographic order: within
Monday slot 1 the row of course "ZZ1" (teacher "b@x") precedes the row of
course "AA1" (teacher "a@x") because the Materializer iterates teachers in
catalog order, not in course-id order. -/
theorem rows_not_in_spec_canonical_order :
    genSatisfies inst6 pRelaxed sol6 ∧
    ¬ List.Pairwise (fun a b => specCanonicalLeB a b = true)
        (generateRows inst6 pRelaxed sol6) := by
  decide

/-- Claim C4 counterexample: a run with the data directory present, the
real profile, adaptive mode and a solver that finds no feasible timetable
in any attempt still exits with status 0, refuting the claimed non-zero
exit code on infeasible/timeout runs; conversely a run whose generation
attempt succeeds exits 1, not 0, because main crashes with an uncaught
TypeError iterating the Boolean result `timetable` in the summary at
run_timetable_system.py line 129. -/
theorem exit_code_zero_on_infeasible_run :
    mainRun true true "real" 3 (fun _ => false) =
      { exitCode := 0, feasible := false, crashed := false } ∧
    mainRun true false "balanced" 3 (fun _ => true) =
      { exitCode := 1, feasible := true, crashed := true } := by
  decide

/-- Claim C5 counterexample: on the empty catalog the model has zero
decision variables, yet `generate_timetable` still calls
`solver.Solve(model)`; the solver is invoked, refuting the claim that it
is skipped. -/
theorem solver_invoked_on_empty_model :
    (varKeys (prep instE pBalanced) pBalanced).length = 0 ∧
    (generateRun instE pBalanced (fun _ => SolverStatus.optimal)).solverInvoked = true := by
  decide

theorem mem_insertAsc (le : α → α → Bool) (a x : α) (l : List α) :
    x ∈ insertAsc le a l ↔ x = a ∨ x ∈ l := by
  induction l with
  | nil => simp [insertAsc]
  | cons b l ih =>
    unfold insertAsc
    split
    · simp
    · simp only [List.mem_cons, ih]
      tauto

theorem mem_sortAsc (le : α → α → Bool) (x : α) (l : List α) :
    x ∈ sortAsc le l ↔ x ∈ l := by
  induction l with
  | nil => simp [sortAsc]
  | cons a l ih => simp [sortAsc, mem_insertAsc, ih]

theorem length_insertAsc (le : α → α → Bool) (a : α) (l : List α) :
    (insertAsc le a l).length = l.length + 1 := by
  induction l with
  | nil => simp [insertAsc]
  | cons b l ih =>
    unfold insertAsc
    split
    · simp
    · simp [ih]

theorem length_sortAsc (le : α → α → Bool) (l : List α) :
    (sortAsc le l).length = l.length := by
  induction l with
  | nil => rfl
  | cons a l ih => simp [sortAsc, length_insertAsc, ih]

theorem include_subset_valid (S : Inst) (p : Params) (t : Nat) :
    includeCourses S p t ⊆ validTeacherCourses S t := by
  intro c hc
  unfold includeCourses at hc
  split at hc
  · exact (mem_sortAsc _ _ _).mp ((List.take_sublist _ _).subset hc)
  · exact hc

theorem createdB_iff (S : Inst) (p : Params) (k : VKey) :
    createdB S p k = true ↔
      k.t < numTeachers S ∧ k.c ∈ includeCourses S p k.t ∧
      k.d < reducedDays ∧ k.s < reducedSlots ∧ k.r ∈ validRoomsFor S k.c := by
  simp [createdB, and_assoc]

theorem mem_varKeys (S : Inst) (p : Params) (k : VKey) :
    k ∈ varKeys S p ↔ createdB S p k = true := by
  rw [createdB_iff]
  unfold varKeys
  simp only [List.mem_flatMap, List.mem_range]
  constructor
  · rintro ⟨t, ht, c, hc, d, hd, s, hs, hk⟩
    split at hk
    · simp only [List.mem_map] at hk
      obtain ⟨r, hr, rfl⟩ := hk
      exact ⟨ht, hc, hd, hs, hr⟩
    · simp at hk
  · rintro ⟨ht, hc, hd, hs, hr⟩
    refine ⟨k.t, ht, k.c, hc, k.d, hd, k.s, hs, ?_⟩
    rw [if_pos (List.ne_nil_of_mem hr)]
    simpa using ⟨k.r, hr, rfl⟩

theorem reducedDays_le_numDays : reducedDays ≤ numDays :=
  Nat.min_le_right 4 numDays

theorem reducedSlots_le_slotsPerDay : reducedSlots ≤ slotsPerDay :=
  Nat.min_le_right 8 slotsPerDay

theorem mem_matKeys (S : Inst) (p : Params) (sol : VKey → Bool) (k : VKey) :
    k ∈ matKeys S p sol ↔ createdB S p k = true ∧ sol k = true := by
  unfold matKeys
  simp only [List.mem_flatMap, List.mem_range, List.mem_filter, List.mem_map,
    Bool.and_eq_true]
  constructor
  · rintro ⟨d, hd, s, hs, t, ht, c, hc, ⟨⟨r, hr, rfl⟩, hcs⟩⟩
    exact hcs
  · rintro ⟨hcr, hsol⟩
    obtain ⟨ht, hc, hd, hs, hr⟩ := (createdB_iff S p k).mp hcr
    exact ⟨k.d, lt_of_lt_of_le hd reducedDays_le_numDays,
      k.s, lt_of_lt_of_le hs reducedSlots_le_slotsPerDay,
      k.t, ht, k.c, include_subset_valid S p k.t hc,
      ⟨⟨k.r, hr, rfl⟩, hcr, hsol⟩⟩

theorem mem_dailyVars (S : Inst) (p : Params) (t d : Nat) (k : VKey)
    (hk : k ∈ dailyVars S p t d) :
    createdB S p k = true ∧ k.t = t ∧ k.d = d := by
  unfold dailyVars at hk
  simp only [List.mem_flatMap, List.mem_range, List.mem_filter, List.mem_map,
    Bool.and_eq_true] at hk
  obtain ⟨c, hc, s, hs, ⟨⟨r, hr, rfl⟩, hcs⟩⟩ := hk
  exact ⟨hcs, rfl, rfl⟩

theorem mem_courseVars (S : Inst) (p : Params) (c : Nat) (k : VKey)
    (hk : k ∈ courseVars S p c) :
    createdB S p k = true ∧ k.c = c ∧ c ∈ validTeacherCourses S k.t := by
  unfold courseVars at hk
  simp only [List.mem_flatMap, List.mem_range] at hk
  obtain ⟨t, ht, hk⟩ := hk
  split at hk
  · simp only [List.mem_flatMap, List.mem_range, List.mem_filter, List.mem_map,
      Bool.and_eq_true] at hk
    obtain ⟨d, hd, s, hs, ⟨⟨r, hr, rfl⟩, hcs⟩⟩ := hk
    exact ⟨hcs, rfl, by assumption⟩
  · simp at hk

theorem sum_map_zero_of (l : List α) (f : α → Nat) (hz : ∀ a ∈ l, f a = 0) :
    (l.map f).sum = 0 := by
  apply List.sum_eq_zero
  intro x hx
  obtain ⟨a, ha, rfl⟩ := List.mem_map.mp hx
  exact hz a ha

theorem sum_map_range_delta (n i0 : Nat) (f : Nat → Nat)
    (hz : ∀ i, i < n → i ≠ i0 → f i = 0) :
    ((List.range n).map f).sum = if i0 < n then f i0 else 0 := by
  induction n with
  | zero => simp
  | succ m ih =>
    rw [List.range_succ, List.map_append, List.sum_append]
    have ihz : ∀ i, i < m → i ≠ i0 → f i = 0 := fun i hi => hz i (Nat.lt_succ_of_lt hi)
    rw [ih ihz]
    rcases lt_trichotomy i0 m with h | h | h
    · have hm : f m = 0 := hz m (Nat.lt_succ_self m) (by omega)
      rw [if_pos h, if_pos (by omega : i0 < m + 1)]
      simp [hm]
    · subst h
      rw [if_neg (lt_irrefl _), if_pos (Nat.lt_succ_self _)]
      simp
    · have hi0 : f i0 = 0 ∨ True := Or.inr trivial
      rw [if_neg (by omega : ¬ i0 < m), if_neg (by omega : ¬ i0 < m + 1)]
      have hm : f m = 0 := hz m (Nat.lt_succ_self m) (by omega)
      simp [hm]

theorem sum_map_list_delta {l : List Nat} (hnd : l.Nodup) (c0 : Nat) (f : Nat → Nat)
    (hz : ∀ x ∈ l, x ≠ c0 → f x = 0) :
    (l.map f).sum = if c0 ∈ l then f c0 else 0 := by
  induction l with
  | nil => simp
  | cons a l ih =>
    simp only [List.map_cons, List.sum_cons]
    have hnd' := (List.nodup_cons.mp hnd).2
    have ha := (List.nodup_cons.mp hnd).1
    rw [ih hnd' fun x hx hxc => hz x (List.mem_cons_of_mem a hx) hxc]
    by_cases hac : a = c0
    · subst hac
      rw [if_neg ha, if_pos (List.mem_cons_self a l)]
      simp
    · rw [hz a (List.mem_cons_self a l) hac]
      by_cases hc : c0 ∈ l
      · rw [if_pos hc, if_pos (List.mem_cons_of_mem a hc)]
        simp
      · have hcal : ¬ c0 ∈ a :: l := by
          intro h
          rcases List.mem_cons.mp h with h1 | h1
          · exact hac h1.symm
          · exact hc h1
        rw [if_neg hc, if_neg hcal]

theorem sum_map_comm (l1 : List α) (l2 : List β) (g : α → β → Nat) :
    (l1.map fun a => (l2.map (g a)).sum).sum
      = (l2.map fun b => (l1.map fun a => g a b).sum).sum := by
  induction l1 with
  | nil => simp [sum_map_zero_of]
  | cons a l ih =>
    simp [List.sum_map_add, ih]

theorem sum_map_range_truncate (m n : Nat) (f : Nat → Nat) (hnm : n ≤ m)
    (hz : ∀ i, n ≤ i → f i = 0) :
    ((List.range m).map f).sum = ((List.range n).map f).sum := by
  obtain ⟨k, rfl⟩ := Nat.exists_eq_add_of_le hnm
  rw [List.range_add, List.map_append, List.sum_append, List.map_map]
  have : ((List.range k).map (f ∘ fun x => n + x)).sum = 0 :=
    sum_map_zero_of _ _ fun i _ => hz (n + i) (Nat.le_add_right n i)
  simp [this]

theorem countP_eq_sum_map (p : α → Bool) (l : List α) :
    l.countP p = (l.map fun a => if p a then 1 else 0).sum := by
  induction l with
  | nil => simp
  | cons a l ih =>
    rw [List.countP_cons, ih]
    simp [Nat.add_comm]

theorem sum_solVal (S : Inst) (p : Params) (sol : VKey → Bool) (vs : List VKey) :
    (vs.map (solVal S p sol)).sum = vs.countP (fun k => createdB S p k && sol k) := by
  rw [countP_eq_sum_map]
  rfl

/-- Claim C10 (implicit): decision variables are only created for day
indices below `min(4, num_days)` and slot indices below
`min(8, slots_per_day)` regardless of the `reduced_problem` flag, and
consequently every produced schedule entry falls on Monday through
Thursday in printed slots 1 through 8. -/
theorem variables_within_reduced_grid (inst : Inst) (p : Params) (sol : VKey → Bool) :
    (∀ k ∈ varKeys (prep inst p) p, k.d < min 4 numDays ∧ k.s < min 8 slotsPerDay) ∧
    (∀ e ∈ generateRows inst p sol,
      e.day ∈ ["Monday", "Tuesday", "Wednesday", "Thursday"] ∧
      1 ≤ e.slot ∧ e.slot ≤ 8) := by
  constructor
  · intro k hk
    have h := (createdB_iff _ _ _).mp ((mem_varKeys _ _ _).mp hk)
    exact ⟨h.2.2.1, h.2.2.2.1⟩
  · intro e he
    unfold generateRows scheduleRows at he
    obtain ⟨k, hk, rfl⟩ := List.mem_map.mp he
    have h := (createdB_iff _ _ _).mp ((mem_matKeys _ _ _ _).mp hk).1
    have hd : k.d < 4 := h.2.2.1
    have hs : k.s < 8 := h.2.2.2.1
    have hslot : (mkEntry (prep inst p) k).slot = k.s + 1 := rfl
    refine ⟨?_, by omega, by omega⟩
    have hcases : k.d = 0 ∨ k.d = 1 ∨ k.d = 2 ∨ k.d = 3 := by omega
    have hday : (mkEntry (prep inst p) k).day = days.getD k.d "" := rfl
    rw [hday]
    rcases hcases with h0 | h0 | h0 | h0 <;> rw [h0] <;> decide

/-- Witness for claim C10 at the trivial input: the first created
variable sits inside the reduced grid. -/
theorem variables_within_reduced_grid_witness :
    (⟨0, 0, 0, 0, 0⟩ : VKey).d < min 4 numDays ∧
    (⟨0, 0, 0, 0, 0⟩ : VKey).s < min 8 slotsPerDay :=
  (variables_within_reduced_grid instT pBalanced solT).1 ⟨0, 0, 0, 0, 0⟩ (by decide)

/-- Claim C5 (amended): when the model has zero decision variables the
claimed skip-and-report path does not exist.  The materialized schedule
is empty; if the reduced catalog has no teachers but a course remains,
the run dies with NameError on the unbound loop variable
`courses_to_include` in the course-exclusivity loop before the solver is
reached; in every other case `solver.Solve` is still invoked,
unconditionally. -/
theorem empty_model_solver_paths (inst : Inst) (p : Params)
    (oracle : List Constr → SolverStatus) (sol : VKey → Bool)
    (h : varKeys (prep inst p) p = []) :
    genMatKeys inst p sol = [] ∧
    (numTeachers (prep inst p) = 0 ∧ 0 < numCourses (prep inst p) →
      (generateRun inst p oracle).crashed = true ∧
      (generateRun inst p oracle).solverInvoked = false) ∧
    (¬ (numTeachers (prep inst p) = 0 ∧ 0 < numCourses (prep inst p)) →
      (generateRun inst p oracle).solverInvoked = true ∧
      (generateRun inst p oracle).crashed = false) := by
  refine ⟨?_, ?_, ?_⟩
  · apply List.eq_nil_iff_forall_not_mem.mpr
    intro k hk
    have hc := ((mem_matKeys _ _ _ _).mp hk).1
    have hv := (mem_varKeys (prep inst p) p k).mpr hc
    rw [h] at hv
    exact absurd hv (List.not_mem_nil k)
  · intro hcr
    unfold generateRun
    dsimp only
    rw [if_pos hcr]
    exact ⟨rfl, rfl⟩
  · intro hcr
    unfold generateRun
    dsimp only
    rw [if_neg hcr]
    exact ⟨rfl, rfl⟩

/-- Witness for claim C5 at the empty catalog: zero decision variables,
empty materialized schedule, and since no course remains the non-crash
branch applies, so the solver is invoked. -/
theorem empty_model_solver_paths_witness :
    genMatKeys instE pBalanced (fun _ => false) = [] ∧
    (numTeachers (prep instE pBalanced) = 0 ∧
        0 < numCourses (prep instE pBalanced) →
      (generateRun instE pBalanced (fun _ => SolverStatus.optimal)).crashed = true ∧
      (generateRun instE pBalanced (fun _ => SolverStatus.optimal)).solverInvoked = false) ∧
    (¬ (numTeachers (prep instE pBalanced) = 0 ∧
        0 < numCourses (prep instE pBalanced)) →
      (generateRun instE pBalanced (fun _ => SolverStatus.optimal)).solverInvoked = true ∧
      (generateRun instE pBalanced (fun _ => SolverStatus.optimal)).crashed = false) :=
  empty_model_solver_paths instE pBalanced _ (fun _ => false) (by decide)

/-- The crash side of the C5 amendment at a concrete input: a catalog
with no teachers and one course reaches the course-exclusivity loop with
`courses_to_include` unbound and dies before `solver.Solve`. -/
theorem generateRun_crashes_on_teacherless_courses :
    numTeachers (prep instC pBalanced) = 0 ∧
    0 < numCourses (prep instC pBalanced) ∧
    (generateRun instC pBalanced (fun _ => SolverStatus.optimal)).crashed = true ∧
    (generateRun instC pBalanced (fun _ => SolverStatus.optimal)).solverInvoked = false := by
  decide

/-- Claim C4 (amended): on every run in which at least one generation
attempt executes (any positive max-attempts; the CLI default is 3), the
process exit code is 0 exactly when the data directory exists and the
run ends infeasible or timed out after all attempts.  A feasible
generation result makes main crash with an uncaught TypeError while
iterating the Boolean `timetable` in the output summary, so the
interpreter exits 1, as it does when the data directory is missing. -/
theorem exit_code_inverted_on_outcome (dataDirPresent adaptive : Bool)
    (mode : String) (maxAttempts : Nat) (solve : String → Bool)
    (_hatt : 1 ≤ maxAttempts) :
    ((mainRun dataDirPresent adaptive mode maxAttempts solve).exitCode = 0 ↔
      dataDirPresent = true ∧
      (mainRun dataDirPresent adaptive mode maxAttempts solve).feasible = false) ∧
    ((mainRun dataDirPresent adaptive mode maxAttempts solve).feasible = true →
      (mainRun dataDirPresent adaptive mode maxAttempts solve).crashed = true ∧
      (mainRun dataDirPresent adaptive mode maxAttempts solve).exitCode = 1) := by
  unfold mainRun
  cases dataDirPresent
  · simp
  · rw [if_neg (by decide)]
    dsimp only
    split <;> split <;> simp

/-- Witness for claim C4: the amended characterisation instantiated at a
failing adaptive run with the default three attempts. -/
theorem exit_code_inverted_on_outcome_witness :
    ((mainRun true true "real" 3 (fun _ => false)).exitCode = 0 ↔
      true = true ∧
      (mainRun true true "real" 3 (fun _ => false)).feasible = false) ∧
    ((mainRun true true "real" 3 (fun _ => false)).feasible = true →
      (mainRun true true "real" 3 (fun _ => false)).crashed = true ∧
      (mainRun true true "real" 3 (fun _ => false)).exitCode = 1) :=
  exit_code_inverted_on_outcome true true "real" 3 (fun _ => false) (by decide)

theorem pairwise_flatMap_of {R : β → β → Prop} {Q : α → α → Prop} {l : List α}
    {f : α → List β} (hl : l.Pairwise Q) (hf : ∀ a ∈ l, (f a).Pairwise R)
    (hcross : ∀ a ∈ l, ∀ b ∈ l, Q a b → ∀ x ∈ f a, ∀ y ∈ f b, R x y) :
    (l.flatMap f).Pairwise R := by
  rw [List.flatMap_def, List.pairwise_flatten]
  constructor
  · intro l' hl'
    obtain ⟨a, ha, rfl⟩ := List.mem_map.mp hl'
    exact hf a ha
  · rw [List.pairwise_map]
    have := List.Pairwise.and_mem.mp hl
    exact this.imp fun h => hcross _ h.1 _ h.2.1 h.2.2

theorem pairwise_lt_validTC (S : Inst) (t : Nat) :
    (validTeacherCourses S t).Pairwise (· < ·) :=
  List.Pairwise.sublist (List.filter_sublist _) (List.pairwise_lt_range _)

theorem pairwise_lt_validRooms (S : Inst) (c : Nat) :
    (validRoomsFor S c).Pairwise (· < ·) := by
  unfold validRoomsFor
  split
  · dsimp only
    split
    · exact List.pairwise_lt_range _
    · rw [List.pairwise_map]
      exact (List.pairwise_lt_range _).imp fun h => by omega
  · exact List.pairwise_lt_range _

theorem mem_mat_level4 (S : Inst) (p : Params) (sol : VKey → Bool) (d s t c : Nat)
    (x : VKey)
    (hx : x ∈ ((validRoomsFor S c).map fun r => (⟨t, c, d, s, r⟩ : VKey)).filter
      (fun k => createdB S p k && sol k)) :
    x.t = t ∧ x.c = c ∧ x.d = d ∧ x.s = s := by
  simp only [List.mem_filter, List.mem_map] at hx
  obtain ⟨⟨r, hr, rfl⟩, hP⟩ := hx
  exact ⟨rfl, rfl, rfl, rfl⟩

theorem mem_mat_level3 (S : Inst) (p : Params) (sol : VKey → Bool) (d s t : Nat)
    (x : VKey)
    (hx : x ∈ (validTeacherCourses S t).flatMap fun c =>
      ((validRoomsFor S c).map fun r => (⟨t, c, d, s, r⟩ : VKey)).filter
        (fun k => createdB S p k && sol k)) :
    x.t = t ∧ x.d = d ∧ x.s = s := by
  obtain ⟨c, hc, hx⟩ := List.mem_flatMap.mp hx
  obtain ⟨h1, _, h3, h4⟩ := mem_mat_level4 S p sol d s t c x hx
  exact ⟨h1, h3, h4⟩

theorem mem_mat_level2 (S : Inst) (p : Params) (sol : VKey → Bool) (d s : Nat)
    (x : VKey)
    (hx : x ∈ (List.range (numTeachers S)).flatMap fun t =>
      (validTeacherCourses S t).flatMap fun c =>
        ((validRoomsFor S c).map fun r => (⟨t, c, d, s, r⟩ : VKey)).filter
          (fun k => createdB S p k && sol k)) :
    x.d = d ∧ x.s = s := by
  obtain ⟨t, ht, hx⟩ := List.mem_flatMap.mp hx
  exact (mem_mat_level3 S p sol d s t x hx).2

theorem mem_mat_level1 (S : Inst) (p : Params) (sol : VKey → Bool) (d : Nat)
    (x : VKey)
    (hx : x ∈ (List.range slotsPerDay).flatMap fun s =>
      (List.range (numTeachers S)).flatMap fun t =>
        (validTeacherCourses S t).flatMap fun c =>
          ((validRoomsFor S c).map fun r => (⟨t, c, d, s, r⟩ : VKey)).filter
            (fun k => createdB S p k && sol k)) :
    x.d = d := by
  obtain ⟨s, hs, hx⟩ := List.mem_flatMap.mp hx
  exact (mem_mat_level2 S p sol d s x hx).1

theorem pairwise_matKeys (S : Inst) (p : Params) (sol : VKey → Bool) :
    List.Pairwise matKeyLt (matKeys S p sol) := by
  unfold matKeys
  apply pairwise_flatMap_of (List.pairwise_lt_range numDays)
  · intro d _
    apply pairwise_flatMap_of (List.pairwise_lt_range slotsPerDay)
    · intro s _
      apply pairwise_flatMap_of (List.pairwise_lt_range (numTeachers S))
      · intro t _
        apply pairwise_flatMap_of (pairwise_lt_validTC S t)
        · intro c _
          apply List.Pairwise.sublist (List.filter_sublist _)
          rw [List.pairwise_map]
          refine (pairwise_lt_validRooms S c).imp ?_
          intro r1 r2 h12
          exact Or.inr ⟨rfl, Or.inr ⟨rfl, Or.inr ⟨rfl, Or.inr ⟨rfl, h12⟩⟩⟩⟩
        · intro c1 _ c2 _ h12 x hx y hy
          obtain ⟨hxt, hxc, hxd, hxs⟩ := mem_mat_level4 S p sol d s t c1 x hx
          obtain ⟨hyt, hyc, hyd, hys⟩ := mem_mat_level4 S p sol d s t c2 y hy
          exact Or.inr ⟨hxd.trans hyd.symm, Or.inr ⟨hxs.trans hys.symm,
            Or.inr ⟨hxt.trans hyt.symm, Or.inl (by rw [hxc, hyc]; exact h12)⟩⟩⟩
      · intro t1 _ t2 _ h12 x hx y hy
        obtain ⟨hxt, hxd, hxs⟩ := mem_mat_level3 S p sol d s t1 x hx
        obtain ⟨hyt, hyd, hys⟩ := mem_mat_level3 S p sol d s t2 y hy
        exact Or.inr ⟨hxd.trans hyd.symm, Or.inr ⟨hxs.trans hys.symm,
          Or.inl (by rw [hxt, hyt]; exact h12)⟩⟩
    · intro s1 _ s2 _ h12 x hx y hy
      obtain ⟨hxd, hxs⟩ := mem_mat_level2 S p sol d s1 x hx
      obtain ⟨hyd, hys⟩ := mem_mat_level2 S p sol d s2 y hy
      exact Or.inr ⟨hxd.trans hyd.symm, Or.inl (by rw [hxs, hys]; exact h12)⟩
  · intro d1 _ d2 _ h12 x hx y hy
    have hxd := mem_mat_level1 S p sol d1 x hx
    have hyd := mem_mat_level1 S p sol d2 y hy
    exact Or.inl (by rw [hxd, hyd]; exact h12)

/-- Claim C6 (amended): the Materializer emits rows strictly ordered by
(day index, slot, teacher catalog index, course index, room index); the
emission order is a function of the catalog and the truth assignment only,
so identical catalogs and assignments give identical output, but within a
(day, slot) pair the order follows the teacher catalog rather than the
claimed (course_id, teacher_id, room_id) lexicographic order. -/
theorem materializer_emission_order (inst : Inst) (p : Params) (sol : VKey → Bool) :
    List.Pairwise matKeyLt (genMatKeys inst p sol) :=
  pairwise_matKeys (prep inst p) p sol

/-- Claim C3 (amended): under profiles posting the lab-consecutivity layer
(balanced or stricter, or the toggle), for the first 15 lab courses every
scheduled entry whose slot is not the last admitted slot is followed by an
entry of the same course, teacher and room at the next slot: the model
posts `x[t,c,d,s+1,r] >= x[t,c,d,s,r]` for every compatible pair of
existing variables, so the successor key is also materialized.  An entry
in the last admitted slot may stand alone
(`lab_entry_unpaired_counterexample`). -/
theorem lab_consecutive_forward_pairing (inst : Inst) (p : Params) (sol : VKey → Bool)
    (hsat : genSatisfies inst p sol)
    (hgate : (!p.relaxed || p.enableLabConsecutive) = true)
    (k : VKey) (hk : k ∈ genMatKeys inst p sol)
    (hlab : k.c ∈ labCourseIdx (prep inst p) 15)
    (hs : k.s + 1 < reducedSlots) :
    (⟨k.t, k.c, k.d, k.s + 1, k.r⟩ : VKey) ∈ genMatKeys inst p sol := by
  obtain ⟨hcr, hsol⟩ := (mem_matKeys (prep inst p) p sol k).mp hk
  obtain ⟨ht, hcin, hd, hsk, hr⟩ := (createdB_iff (prep inst p) p k).mp hcr
  have heta : (⟨k.t, k.c, k.d, k.s, k.r⟩ : VKey) = k := rfl
  have hcr2 : createdB (prep inst p) p ⟨k.t, k.c, k.d, k.s + 1, k.r⟩ = true :=
    (createdB_iff _ _ _).mpr ⟨ht, hcin, hd, hs, hr⟩
  have hctc : k.c ∈ validTeacherCourses (prep inst p) k.t :=
    include_subset_valid (prep inst p) p k.t hcin
  have hcond : (createdB (prep inst p) p ⟨k.t, k.c, k.d, k.s, k.r⟩ &&
      createdB (prep inst p) p ⟨k.t, k.c, k.d, k.s + 1, k.r⟩) = true := by
    rw [heta, hcr, hcr2]
    rfl
  have hcon : (Constr.geVar ⟨k.t, k.c, k.d, k.s + 1, k.r⟩ ⟨k.t, k.c, k.d, k.s, k.r⟩)
      ∈ labConstrs (prep inst p) p := by
    unfold labConstrs
    rw [if_pos hgate]
    simp only [List.mem_flatMap]
    refine ⟨k.c, hlab, k.t, List.mem_range.mpr ht, ?_⟩
    rw [if_pos hctc]
    simp only [List.mem_flatMap, List.mem_range, List.mem_filterMap]
    refine ⟨k.d, hd, k.s, by omega, k.r, hr, ?_⟩
    rw [if_pos hcond]
  have hmem : (Constr.geVar ⟨k.t, k.c, k.d, k.s + 1, k.r⟩ ⟨k.t, k.c, k.d, k.s, k.r⟩)
      ∈ modelConstraints (prep inst p) p := by
    unfold modelConstraints
    simp only [List.mem_append]
    tauto
  have hh := hsat _ hmem
  simp only [constrHolds] at hh
  have hlo : solVal (prep inst p) p sol ⟨k.t, k.c, k.d, k.s, k.r⟩ = 1 := by
    have hcnd : (createdB (prep inst p) p ⟨k.t, k.c, k.d, k.s, k.r⟩ &&
        sol ⟨k.t, k.c, k.d, k.s, k.r⟩) = true := by
      rw [heta, hcr, hsol]
      rfl
    simp [solVal, hcnd]
  rw [hlo] at hh
  have hcond2 : (createdB (prep inst p) p ⟨k.t, k.c, k.d, k.s + 1, k.r⟩ &&
      sol ⟨k.t, k.c, k.d, k.s + 1, k.r⟩) = true := by
    by_contra hne
    have hzero : solVal (prep inst p) p sol ⟨k.t, k.c, k.d, k.s + 1, k.r⟩ = 0 := by
      simp only [solVal]
      rw [if_neg]
      simpa using hne
    rw [hzero] at hh
    exact absurd hh (by omega)
  have hand : createdB (prep inst p) p ⟨k.t, k.c, k.d, k.s + 1, k.r⟩ = true ∧
      sol ⟨k.t, k.c, k.d, k.s + 1, k.r⟩ = true := by
    simpa using hcond2
  exact (mem_matKeys (prep inst p) p sol _).mpr hand

/-- Witness for claim C3: at the lab input with the course scheduled in
the last two admitted slots, the entry at model slot 6 is followed by the
entry at model slot 7. -/
theorem lab_consecutive_forward_pairing_witness :
    (⟨0, 0, 0, 7, 0⟩ : VKey) ∈ genMatKeys inst3 pBalanced sol3w := by
  have h := lab_consecutive_forward_pairing inst3 pBalanced sol3w (by decide)
    (by decide) ⟨0, 0, 0, 6, 0⟩ (by decide) (by decide) (by decide)
  exact h

theorem mem_filter_mapKeyP (S : Inst) (d s t c : Nat) (P : VKey → Bool) (x : VKey)
    (hx : x ∈ ((validRoomsFor S c).map fun r => (⟨t, c, d, s, r⟩ : VKey)).filter P) :
    x.t = t ∧ x.c = c ∧ x.d = d ∧ x.s = s := by
  simp only [List.mem_filter, List.mem_map] at hx
  obtain ⟨⟨r, hr, rfl⟩, hP⟩ := hx
  exact ⟨rfl, rfl, rfl, rfl⟩

theorem matKeyLt_ne {a b : VKey} (h : matKeyLt a b) : a ≠ b := by
  intro he
  subst he
  rcases h with h | ⟨_, h | ⟨_, h | ⟨_, h | ⟨_, h⟩⟩⟩⟩ <;> omega

theorem nodup_matKeys (S : Inst) (p : Params) (sol : VKey → Bool) :
    (matKeys S p sol).Nodup :=
  (pairwise_matKeys S p sol).imp fun h => matKeyLt_ne h

theorem nodup_dailyVars (S : Inst) (p : Params) (t d : Nat) :
    (dailyVars S p t d).Nodup := by
  have hpw : (dailyVars S p t d).Pairwise (fun a b : VKey =>
      a.c < b.c ∨ (a.c = b.c ∧ (a.s < b.s ∨ (a.s = b.s ∧ a.r < b.r)))) := by
    unfold dailyVars
    apply pairwise_flatMap_of (pairwise_lt_validTC S t)
    · intro c _
      apply pairwise_flatMap_of (List.pairwise_lt_range reducedSlots)
      · intro s _
        apply List.Pairwise.sublist (List.filter_sublist _)
        rw [List.pairwise_map]
        refine (pairwise_lt_validRooms S c).imp ?_
        intro r1 r2 h12
        exact Or.inr ⟨rfl, Or.inr ⟨rfl, h12⟩⟩
      · intro s1 _ s2 _ h12 x hx y hy
        obtain ⟨_, hxc, _, hxs⟩ := mem_filter_mapKeyP S d s1 t c _ x hx
        obtain ⟨_, hyc, _, hys⟩ := mem_filter_mapKeyP S d s2 t c _ y hy
        exact Or.inr ⟨hxc.trans hyc.symm, Or.inl (by rw [hxs, hys]; exact h12)⟩
    · intro c1 _ c2 _ h12 x hx y hy
      obtain ⟨s1, _, hx⟩ := List.mem_flatMap.mp hx
      obtain ⟨s2, _, hy⟩ := List.mem_flatMap.mp hy
      obtain ⟨_, hxc, _, _⟩ := mem_filter_mapKeyP S d s1 t c1 _ x hx
      obtain ⟨_, hyc, _, _⟩ := mem_filter_mapKeyP S d s2 t c2 _ y hy
      exact Or.inl (by rw [hxc, hyc]; exact h12)
  refine hpw.imp ?_
  intro a b h he
  subst he
  rcases h with h | ⟨_, h | ⟨_, h⟩⟩ <;> omega

theorem mem_dailyVars_iff (S : Inst) (p : Params) (t d : Nat) (k : VKey) :
    k ∈ dailyVars S p t d ↔ createdB S p k = true ∧ k.t = t ∧ k.d = d := by
  constructor
  · exact mem_dailyVars S p t d k
  · rintro ⟨hcr, rfl, rfl⟩
    obtain ⟨ht, hcin, hd, hs, hr⟩ := (createdB_iff S p k).mp hcr
    unfold dailyVars
    simp only [List.mem_flatMap, List.mem_range, List.mem_filter, List.mem_map]
    exact ⟨k.c, include_subset_valid _ _ _ hcin, k.s, hs, ⟨⟨k.r, hr, rfl⟩, hcr⟩⟩

theorem mat_count_teacher_day (S : Inst) (p : Params) (sol : VKey → Bool) (t0 d0 : Nat) :
    (matKeys S p sol).countP (fun k => decide (k.t = t0) && decide (k.d = d0)) =
      (dailyVars S p t0 d0).countP (fun k => createdB S p k && sol k) := by
  rw [List.countP_eq_length_filter, List.countP_eq_length_filter]
  apply List.Perm.length_eq
  rw [List.perm_ext_iff_of_nodup (List.Nodup.filter _ (nodup_matKeys S p sol))
    (List.Nodup.filter _ (nodup_dailyVars S p t0 d0))]
  intro k
  simp only [List.mem_filter, mem_matKeys, mem_dailyVars_iff, Bool.and_eq_true,
    decide_eq_true_eq]
  tauto

theorem dailyVars_count_le (S : Inst) (p : Params) (sol : VKey → Bool)
    (hsat : satisfies S p sol) (t d : Nat) :
    (dailyVars S p t d).countP (fun k => createdB S p k && sol k) ≤ 5 := by
  by_cases hvs : dailyVars S p t d = []
  · rw [hvs]
    simp
  · obtain ⟨k, hk⟩ := List.exists_mem_of_ne_nil _ hvs
    obtain ⟨hcr, hkt, hkd⟩ := mem_dailyVars S p t d k hk
    obtain ⟨ht, _, hd, _, _⟩ := (createdB_iff S p k).mp hcr
    rw [hkt] at ht
    rw [hkd] at hd
    have hcon : (Constr.le (dailyVars S p t d) maxTeacherSlotsPerDay)
        ∈ dailyLoadConstrs S p := by
      unfold dailyLoadConstrs
      simp only [List.mem_flatMap, List.mem_range, List.mem_filterMap]
      refine ⟨t, ht, d, hd, ?_⟩
      rw [if_neg hvs]
    have hmem : (Constr.le (dailyVars S p t d) maxTeacherSlotsPerDay)
        ∈ modelConstraints S p := by
      unfold modelConstraints
      simp only [List.mem_append]
      tauto
    have hh := hsat _ hmem
    simp only [constrHolds] at hh
    rw [sum_solVal] at hh
    exact hh

/-- Claim C9 (confirmed): for every satisfying assignment under any
parameter set, and any (teacher id, day name), the produced schedule has
at most 5 entries for that pair; the daily-load constraint is posted per
(teacher index, day index) and teacher ids determine indices uniquely for
a duplicate-free catalog. -/
theorem teacher_daily_cap (inst : Inst) (p : Params) (sol : VKey → Bool)
    (hnd : inst.teachers.Nodup) (hsat : genSatisfies inst p sol) (T D : String) :
    (generateRows inst p sol).countP
      (fun e => e.teacher == T && e.day == D) ≤ 5 := by
  have hndS : (prep inst p).teachers.Nodup := by
    unfold prep
    split
    · unfold reduceInst
      exact List.Nodup.sublist
        ((List.take_sublist _ _).trans (List.filter_sublist _)) hnd
    · exact hnd
  unfold generateRows scheduleRows
  rw [List.countP_map]
  by_cases hT : ∃ t0, t0 < numTeachers (prep inst p) ∧ teacherAt (prep inst p) t0 = T
  · obtain ⟨t0, ht0, hTeq⟩ := hT
    by_cases hD : ∃ d0, d0 < numDays ∧ days.getD d0 "" = D
    · obtain ⟨d0, hd0, hDeq⟩ := hD
      have hdays : ∀ i, i < 5 → ∀ j, j < 5 → days.getD i "" = days.getD j "" → i = j := by
        decide
      calc (matKeys (prep inst p) p sol).countP
            ((fun e => e.teacher == T && e.day == D) ∘ mkEntry (prep inst p))
          ≤ (matKeys (prep inst p) p sol).countP
            (fun k => decide (k.t = t0) && decide (k.d = d0)) := by
            apply List.countP_mono_left
            intro k hk hpk
            obtain ⟨hcr, _⟩ := (mem_matKeys _ _ _ _).mp hk
            obtain ⟨ht, _, hd, _, _⟩ := (createdB_iff _ _ _).mp hcr
            simp only [Function.comp_apply, Bool.and_eq_true, beq_iff_eq] at hpk
            have hteach : teacherAt (prep inst p) k.t = T := hpk.1
            have hday : days.getD k.d "" = D := hpk.2
            have hkt : k.t = t0 := by
              have h1 : teacherAt (prep inst p) k.t = teacherAt (prep inst p) t0 :=
                hteach.trans hTeq.symm
              unfold teacherAt at h1
              rw [List.getD_eq_getElem _ _ ht, List.getD_eq_getElem _ _ ht0] at h1
              exact (List.Nodup.getElem_inj_iff hndS).mp h1
            have hkd : k.d = d0 := by
              apply hdays k.d (lt_of_lt_of_le hd reducedDays_le_numDays) d0 hd0
              exact hday.trans hDeq.symm
            simp [hkt, hkd]
        _ = (dailyVars (prep inst p) p t0 d0).countP
              (fun k => createdB (prep inst p) p k && sol k) :=
            mat_count_teacher_day (prep inst p) p sol t0 d0
        _ ≤ 5 := dailyVars_count_le (prep inst p) p sol hsat t0 d0
    · refine Nat.le_of_eq ?_ |>.trans (Nat.zero_le 5)
      apply List.countP_eq_zero.mpr
      intro k hk hpk
      obtain ⟨hcr, _⟩ := (mem_matKeys _ _ _ _).mp hk
      obtain ⟨_, _, hd, _, _⟩ := (createdB_iff _ _ _).mp hcr
      simp only [Function.comp_apply, Bool.and_eq_true, beq_iff_eq] at hpk
      exact hD ⟨k.d, lt_of_lt_of_le hd reducedDays_le_numDays, hpk.2⟩
  · refine Nat.le_of_eq ?_ |>.trans (Nat.zero_le 5)
    apply List.countP_eq_zero.mpr
    intro k hk hpk
    obtain ⟨hcr, _⟩ := (mem_matKeys _ _ _ _).mp hk
    obtain ⟨ht, _, _, _, _⟩ := (createdB_iff _ _ _).mp hcr
    simp only [Function.comp_apply, Bool.and_eq_true, beq_iff_eq] at hpk
    exact hT ⟨k.t, ht, hpk.1⟩

/-- Witness for claim C9 at the trivial satisfiable input. -/
theorem teacher_daily_cap_witness :
    (generateRows instT pBalanced solT).countP
      (fun e => e.teacher == "t@x" && e.day == "Monday") ≤ 5 :=
  teacher_daily_cap instT pBalanced solT (by decide) (by decide) "t@x" "Monday"

theorem mem_courseVars_inner (S : Inst) (p : Params) (t c : Nat) (x : VKey)
    (hx : x ∈ (List.range reducedDays).flatMap fun d =>
      (List.range reducedSlots).flatMap fun s =>
        ((validRoomsFor S c).map fun r => (⟨t, c, d, s, r⟩ : VKey)).filter
          (createdB S p)) :
    x.t = t ∧ x.c = c := by
  obtain ⟨d, _, hx⟩ := List.mem_flatMap.mp hx
  obtain ⟨s, _, hx⟩ := List.mem_flatMap.mp hx
  obtain ⟨h1, h2, _, _⟩ := mem_filter_mapKeyP S d s t c _ x hx
  exact ⟨h1, h2⟩

theorem mem_courseVars_iff (S : Inst) (p : Params) (c : Nat) (k : VKey) :
    k ∈ courseVars S p c ↔ createdB S p k = true ∧ k.c = c := by
  constructor
  · intro hk
    exact ⟨(mem_courseVars S p c k hk).1, (mem_courseVars S p c k hk).2.1⟩
  · rintro ⟨hcr, rfl⟩
    obtain ⟨ht, hcin, hd, hs, hr⟩ := (createdB_iff S p k).mp hcr
    have hvt : k.c ∈ validTeacherCourses S k.t := include_subset_valid _ _ _ hcin
    unfold courseVars
    simp only [List.mem_flatMap, List.mem_range]
    refine ⟨k.t, ht, ?_⟩
    rw [if_pos hvt]
    simp only [List.mem_flatMap, List.mem_range, List.mem_filter, List.mem_map]
    exact ⟨k.d, hd, k.s, hs, ⟨⟨k.r, hr, rfl⟩, hcr⟩⟩

theorem nodup_courseVars (S : Inst) (p : Params) (c : Nat) :
    (courseVars S p c).Nodup := by
  have hpw : (courseVars S p c).Pairwise (fun a b : VKey =>
      a.t < b.t ∨ (a.t = b.t ∧ (a.d < b.d ∨ (a.d = b.d ∧
        (a.s < b.s ∨ (a.s = b.s ∧ a.r < b.r)))))) := by
    unfold courseVars
    apply pairwise_flatMap_of (List.pairwise_lt_range (numTeachers S))
    · intro t _
      by_cases hg : c ∈ validTeacherCourses S t
      · rw [if_pos hg]
        apply pairwise_flatMap_of (List.pairwise_lt_range reducedDays)
        · intro d _
          apply pairwise_flatMap_of (List.pairwise_lt_range reducedSlots)
          · intro s _
            apply List.Pairwise.sublist (List.filter_sublist _)
            rw [List.pairwise_map]
            refine (pairwise_lt_validRooms S c).imp ?_
            intro r1 r2 h12
            exact Or.inr ⟨rfl, Or.inr ⟨rfl, Or.inr ⟨rfl, h12⟩⟩⟩
          · intro s1 _ s2 _ h12 x hx y hy
            obtain ⟨hxt, _, hxd, hxs⟩ := mem_filter_mapKeyP S d s1 t c _ x hx
            obtain ⟨hyt, _, hyd, hys⟩ := mem_filter_mapKeyP S d s2 t c _ y hy
            exact Or.inr ⟨hxt.trans hyt.symm, Or.inr ⟨hxd.trans hyd.symm,
              Or.inl (by rw [hxs, hys]; exact h12)⟩⟩
        · intro d1 _ d2 _ h12 x hx y hy
          obtain ⟨s1, _, hx⟩ := List.mem_flatMap.mp hx
          obtain ⟨s2, _, hy⟩ := List.mem_flatMap.mp hy
          obtain ⟨hxt, _, hxd, _⟩ := mem_filter_mapKeyP S d1 s1 t c _ x hx
          obtain ⟨hyt, _, hyd, _⟩ := mem_filter_mapKeyP S d2 s2 t c _ y hy
          exact Or.inr ⟨hxt.trans hyt.symm, Or.inl (by rw [hxd, hyd]; exact h12)⟩
      · rw [if_neg hg]
        exact List.Pairwise.nil
    · intro t1 _ t2 _ h12 x hx y hy
      by_cases h1 : c ∈ validTeacherCourses S t1
      · by_cases h2 : c ∈ validTeacherCourses S t2
        · rw [if_pos h1] at hx
          rw [if_pos h2] at hy
          have hxt := (mem_courseVars_inner S p t1 c x hx).1
          have hyt := (mem_courseVars_inner S p t2 c y hy).1
          exact Or.inl (by rw [hxt, hyt]; exact h12)
        · rw [if_neg h2] at hy
          exact absurd hy (List.not_mem_nil y)
      · rw [if_neg h1] at hx
        exact absurd hx (List.not_mem_nil x)
  refine hpw.imp ?_
  intro a b h he
  subst he
  rcases h with h | ⟨_, h | ⟨_, h | ⟨_, h⟩⟩⟩ <;> omega

theorem mat_count_course (S : Inst) (p : Params) (sol : VKey → Bool) (c0 : Nat) :
    (matKeys S p sol).countP (fun k => decide (k.c = c0)) =
      (courseVars S p c0).countP (fun k => createdB S p k && sol k) := by
  rw [List.countP_eq_length_filter, List.countP_eq_length_filter]
  apply List.Perm.length_eq
  rw [List.perm_ext_iff_of_nodup (List.Nodup.filter _ (nodup_matKeys S p sol))
    (List.Nodup.filter _ (nodup_courseVars S p c0))]
  intro k
  simp only [List.mem_filter, mem_matKeys, mem_courseVars_iff, Bool.and_eq_true,
    decide_eq_true_eq]
  tauto

/-- Claim C8 (confirmed): under each constraint mode, for every course
whose set of created decision variables has size at least the mode's
minimum instance count (1 for relaxed and balanced, 2 for hybrid and
real), every satisfying assignment schedules the course at least that
many times: the minimum-instances constraint is posted exactly for such
courses. -/
theorem min_instances_enforced (m : CMode) (red stag : Bool) (inst : Inst)
    (sol : VKey → Bool) (c : Nat)
    (hsat : genSatisfies inst (modeParams m red stag) sol)
    (hcand : modeMinInstances m ≤
      (courseVars (prep inst (modeParams m red stag)) (modeParams m red stag) c).length) :
    modeMinInstances m ≤
      (genMatKeys inst (modeParams m red stag) sol).countP (fun k => decide (k.c = c)) := by
  have heff : effectiveMinInstances (modeParams m red stag) = modeMinInstances m := by
    cases m <;> rfl
  unfold genMatKeys
  rw [mat_count_course]
  by_cases hvs : courseVars (prep inst (modeParams m red stag)) (modeParams m red stag) c = []
  · rw [hvs] at hcand ⊢
    simpa using hcand
  · obtain ⟨k, hk⟩ := List.exists_mem_of_ne_nil _ hvs
    obtain ⟨hcr, hkc, hcvt⟩ := mem_courseVars _ _ _ k hk
    have hclt : c < numCourses (prep inst (modeParams m red stag)) :=
      List.mem_range.mp (List.mem_filter.mp hcvt).1
    have hcond : (!(courseVars (prep inst (modeParams m red stag))
          (modeParams m red stag) c).isEmpty &&
        decide (effectiveMinInstances (modeParams m red stag) ≤
          (courseVars (prep inst (modeParams m red stag))
            (modeParams m red stag) c).length)) = true := by
      simp only [Bool.and_eq_true, Bool.not_eq_true', decide_eq_true_eq]
      constructor
      · simpa using hvs
      · rw [heff]
        exact hcand
    have hcon : (Constr.ge (courseVars (prep inst (modeParams m red stag))
          (modeParams m red stag) c) (effectiveMinInstances (modeParams m red stag)))
        ∈ minInstanceConstrs (prep inst (modeParams m red stag)) (modeParams m red stag) := by
      unfold minInstanceConstrs
      simp only [List.mem_filterMap, List.mem_range]
      refine ⟨c, hclt, ?_⟩
      rw [if_pos hcond]
    have hmem : (Constr.ge (courseVars (prep inst (modeParams m red stag))
          (modeParams m red stag) c) (effectiveMinInstances (modeParams m red stag)))
        ∈ modelConstraints (prep inst (modeParams m red stag)) (modeParams m red stag) := by
      unfold modelConstraints
      simp only [List.mem_append]
      tauto
    have hh := hsat _ hmem
    simp only [constrHolds] at hh
    rw [sum_solVal, heff] at hh
    exact hh

/-- Witness for claim C8 at the trivial satisfiable input under the
balanced mode. -/
theorem min_instances_enforced_witness :
    modeMinInstances .balancedM ≤
      (genMatKeys instT (modeParams .balancedM true false) solT).countP
        (fun k => decide (k.c = 0)) :=
  min_instances_enforced .balancedM true false instT solT 0 (by decide) (by decide)

theorem assignTeacher_eq_of_mem {st : AssignState} {te c : String}
    (h : c ∈ st.teacherCourses te) : assignTeacher st te c = st := by
  unfold assignTeacher
  rw [if_pos h]

theorem assignTeacher_tc_of_not_mem {st : AssignState} {te c : String}
    (h : c ∉ st.teacherCourses te) :
    (assignTeacher st te c).teacherCourses =
      fun t => if t = te then st.teacherCourses te ++ [c] else st.teacherCourses t := by
  unfold assignTeacher
  rw [if_neg h]

theorem assignTeacher_ct_of_not_mem {st : AssignState} {te c : String}
    (h : c ∉ st.teacherCourses te) :
    (assignTeacher st te c).courseTeachers =
      fun c2 => if c2 = c then st.courseTeachers c ++ [te] else st.courseTeachers c2 := by
  unfold assignTeacher
  rw [if_neg h]

/-- Duplicate rejection is idempotent: attaching an already-attached
(teacher, course) pair is a no-op. -/
theorem assignTeacher_idem (st : AssignState) (te c : String) :
    assignTeacher (assignTeacher st te c) te c = assignTeacher st te c := by
  by_cases h : c ∈ st.teacherCourses te
  · rw [assignTeacher_eq_of_mem h, assignTeacher_eq_of_mem h]
  · apply assignTeacher_eq_of_mem
    rw [assignTeacher_tc_of_not_mem h]
    simp

theorem assignTeacher_ct_ne {st : AssignState} {te c c0 : String}
    (h : st.courseTeachers c0 ≠ []) :
    (assignTeacher st te c).courseTeachers c0 ≠ [] := by
  by_cases hm : c ∈ st.teacherCourses te
  · rw [assignTeacher_eq_of_mem hm]
    exact h
  · rw [assignTeacher_ct_of_not_mem hm]
    by_cases he : c0 = c
    · subst he
      simp
    · simp only [if_neg he]
      exact h

theorem assignTeacher_ct_ne_self {st : AssignState} (hinv : AssignInv st)
    (te c : String) : (assignTeacher st te c).courseTeachers c ≠ [] := by
  by_cases hm : c ∈ st.teacherCourses te
  · rw [assignTeacher_eq_of_mem hm]
    exact List.ne_nil_of_mem ((hinv.1 te c).mp hm)
  · rw [assignTeacher_ct_of_not_mem hm]
    simp

theorem assignTeacher_inv {st : AssignState} (hinv : AssignInv st) (te c : String) :
    AssignInv (assignTeacher st te c) := by
  by_cases hm : c ∈ st.teacherCourses te
  · rw [assignTeacher_eq_of_mem hm]
    exact hinv
  · obtain ⟨hiff, htc, hct⟩ := hinv
    have hte : te ∉ st.courseTeachers c := fun hh => hm ((hiff te c).mpr hh)
    refine ⟨?_, ?_, ?_⟩
    · intro t c2
      rw [assignTeacher_tc_of_not_mem hm, assignTeacher_ct_of_not_mem hm]
      dsimp only
      by_cases ht : t = te
      · by_cases hc2 : c2 = c
        · subst ht
          subst hc2
          simp
        · subst ht
          rw [if_pos rfl, if_neg hc2]
          simp only [List.mem_append, List.mem_singleton]
          constructor
          · rintro (hh | hh)
            · exact (hiff t c2).mp hh
            · exact absurd hh hc2
          · intro hh
            exact Or.inl ((hiff t c2).mpr hh)
      · by_cases hc2 : c2 = c
        · subst hc2
          rw [if_neg ht, if_pos rfl]
          simp only [List.mem_append, List.mem_singleton]
          constructor
          · intro hh
            exact Or.inl ((hiff t c2).mp hh)
          · rintro (hh | hh)
            · exact (hiff t c2).mpr hh
            · exact absurd hh ht
        · rw [if_neg ht, if_neg hc2]
          exact hiff t c2
    · intro t
      rw [assignTeacher_tc_of_not_mem hm]
      dsimp only
      by_cases ht : t = te
      · subst ht
        rw [if_pos rfl, List.nodup_append]
        refine ⟨htc t, List.nodup_singleton c, ?_⟩
        intro a ha hb
        rw [List.mem_singleton] at hb
        exact hm (hb ▸ ha)
      · rw [if_neg ht]
        exact htc t
    · intro c2
      rw [assignTeacher_ct_of_not_mem hm]
      dsimp only
      by_cases hc2 : c2 = c
      · subst hc2
        rw [if_pos rfl, List.nodup_append]
        refine ⟨hct c2, List.nodup_singleton te, ?_⟩
        intro a ha hb
        rw [List.mem_singleton] at hb
        exact hte (hb ▸ ha)
      · rw [if_neg hc2]
        exact hct c2

theorem emptyAssignState_inv : AssignInv emptyAssignState := by
  refine ⟨?_, ?_, ?_⟩ <;> intro x <;> simp [emptyAssignState]

theorem foldl_assign_inv (course : String) (l : List String) (st : AssignState)
    (hinv : AssignInv st) :
    AssignInv (l.foldl (fun s te => assignTeacher s te course) st) := by
  induction l generalizing st with
  | nil => exact hinv
  | cons a l ih => exact ih _ (assignTeacher_inv hinv a course)

theorem foldl_assign_ct_ne (course c0 : String) (l : List String) (st : AssignState)
    (h : st.courseTeachers c0 ≠ []) :
    (l.foldl (fun s te => assignTeacher s te course) st).courseTeachers c0 ≠ [] := by
  induction l generalizing st with
  | nil => exact h
  | cons a l ih => exact ih _ (assignTeacher_ct_ne h)

theorem foldl_assign_ct_ne_self (course : String) (l : List String) (st : AssignState)
    (hinv : AssignInv st) (hl : l ≠ []) :
    (l.foldl (fun s te => assignTeacher s te course) st).courseTeachers course ≠ [] := by
  cases l with
  | nil => exact absurd rfl hl
  | cons a l =>
    rw [List.foldl_cons]
    exact foldl_assign_ct_ne course course l _ (assignTeacher_ct_ne_self hinv a course)

theorem inferStep_inv (inst : Inst) (sample : AssignRow → List String → List String)
    (st : AssignState) (row : AssignRow) (hinv : AssignInv st) :
    AssignInv (inferStep inst sample st row) := by
  unfold inferStep
  split
  · dsimp only
    split
    · exact foldl_assign_inv _ _ _ hinv
    · exact hinv
  · exact hinv

theorem inferStep_ct_ne (inst : Inst) (sample : AssignRow → List String → List String)
    (st : AssignState) (row : AssignRow) (c0 : String)
    (h : st.courseTeachers c0 ≠ []) :
    (inferStep inst sample st row).courseTeachers c0 ≠ [] := by
  unfold inferStep
  split
  · dsimp only
    split
    · exact foldl_assign_ct_ne _ _ _ _ h
    · exact h
  · exact h

theorem inferStep_establishes (inst : Inst)
    (sample : AssignRow → List String → List String) (st : AssignState)
    (row : AssignRow) (hinv : AssignInv st)
    (helig : rowEligible inst row = true)
    (hdept : deptTeachersFor inst ((inst.deptNameToId row.faculty).getD "") ≠ [])
    (hsample : ∀ r l, l ≠ [] → sample r l ≠ []) :
    (inferStep inst sample st row).courseTeachers row.courseCode ≠ [] := by
  unfold inferStep
  rw [if_pos helig]
  dsimp only
  rw [if_pos hdept]
  exact foldl_assign_ct_ne_self _ _ _ hinv (hsample _ _ hdept)

theorem foldl_inferStep_inv (inst : Inst)
    (sample : AssignRow → List String → List String) (table : List AssignRow)
    (st : AssignState) (hinv : AssignInv st) :
    AssignInv (table.foldl (inferStep inst sample) st) := by
  induction table generalizing st with
  | nil => exact hinv
  | cons r rest ih => exact ih _ (inferStep_inv inst sample st r hinv)

theorem foldl_inferStep_ct_ne (inst : Inst)
    (sample : AssignRow → List String → List String) (table : List AssignRow)
    (st : AssignState) (c0 : String) (h : st.courseTeachers c0 ≠ []) :
    (table.foldl (inferStep inst sample) st).courseTeachers c0 ≠ [] := by
  induction table generalizing st with
  | nil => exact h
  | cons r rest ih => exact ih _ (inferStep_ct_ne inst sample st r c0 h)

theorem foldl_inferStep_establishes (inst : Inst)
    (sample : AssignRow → List String → List String) (table : List AssignRow)
    (st : AssignState) (hinv : AssignInv st) (row : AssignRow) (hrow : row ∈ table)
    (helig : rowEligible inst row = true)
    (hdept : deptTeachersFor inst ((inst.deptNameToId row.faculty).getD "") ≠ [])
    (hsample : ∀ r l, l ≠ [] → sample r l ≠ []) :
    (table.foldl (inferStep inst sample) st).courseTeachers row.courseCode ≠ [] := by
  induction table generalizing st with
  | nil => exact absurd hrow (List.not_mem_nil row)
  | cons r rest ih =>
    rw [List.foldl_cons]
    rcases List.mem_cons.mp hrow with heq | hmem
    · subst heq
      exact foldl_inferStep_ct_ne inst sample rest _ _
        (inferStep_establishes inst sample st row hinv helig hdept hsample)
    · exact ih _ (inferStep_inv inst sample st r hinv) hmem

theorem addToAssoc_preserve (l : List (String × List String)) (key val k2 : String)
    (cl : List String) (v0 : String) (hmem : (k2, cl) ∈ l) (hv : v0 ∈ cl) :
    ∃ cl2, (k2, cl2) ∈ addToAssoc l key val ∧ v0 ∈ cl2 := by
  induction l with
  | nil => exact absurd hmem (List.not_mem_nil _)
  | cons p rest ih =>
    obtain ⟨k, vs⟩ := p
    unfold addToAssoc
    rcases List.mem_cons.mp hmem with heq | hm
    · obtain ⟨hk2, hcl⟩ := Prod.mk.injEq .. ▸ heq
      subst hk2
      subst hcl
      by_cases hk : k2 = key
      · rw [if_pos hk]
        exact ⟨cl ++ [val], List.mem_cons_self _ _, List.mem_append_left _ hv⟩
      · rw [if_neg hk]
        exact ⟨cl, List.mem_cons_self _ _, hv⟩
    · by_cases hk : k = key
      · rw [if_pos hk]
        exact ⟨cl, List.mem_cons_of_mem _ hm, hv⟩
      · rw [if_neg hk]
        obtain ⟨cl2, h1, h2⟩ := ih hm
        exact ⟨cl2, List.mem_cons_of_mem _ h1, h2⟩

theorem addToAssoc_new (l : List (String × List String)) (key val : String) :
    ∃ cl, (key, cl) ∈ addToAssoc l key val ∧ val ∈ cl := by
  induction l with
  | nil => exact ⟨[val], by simp [addToAssoc], by simp⟩
  | cons p rest ih =>
    obtain ⟨k, vs⟩ := p
    unfold addToAssoc
    by_cases hk : k = key
    · subst hk
      rw [if_pos rfl]
      exact ⟨vs ++ [val], List.mem_cons_self _ _, List.mem_append_right _ (by simp)⟩
    · rw [if_neg hk]
      obtain ⟨cl, h1, h2⟩ := ih
      exact ⟨cl, List.mem_cons_of_mem _ h1, h2⟩

theorem addToAssoc2_preserve (l : List (String × List (String × List String)))
    (ka kb v k1 k2 : String) (sub : List (String × List String)) (cl : List String)
    (v0 : String) (hmem : (k1, sub) ∈ l) (hsub : (k2, cl) ∈ sub) (hv : v0 ∈ cl) :
    ∃ sub2 cl2, (k1, sub2) ∈ addToAssoc2 l ka kb v ∧ (k2, cl2) ∈ sub2 ∧ v0 ∈ cl2 := by
  induction l with
  | nil => exact absurd hmem (List.not_mem_nil _)
  | cons p rest ih =>
    obtain ⟨k, s⟩ := p
    unfold addToAssoc2
    rcases List.mem_cons.mp hmem with heq | hm
    · obtain ⟨hk1, hs⟩ := Prod.mk.injEq .. ▸ heq
      subst hk1
      subst hs
      by_cases hk : k1 = ka
      · rw [if_pos hk]
        obtain ⟨cl2, h1, h2⟩ := addToAssoc_preserve sub kb v k2 cl v0 hsub hv
        exact ⟨addToAssoc sub kb v, cl2, List.mem_cons_self _ _, h1, h2⟩
      · rw [if_neg hk]
        exact ⟨sub, cl, List.mem_cons_self _ _, hsub, hv⟩
    · by_cases hk : k = ka
      · rw [if_pos hk]
        exact ⟨sub, cl, List.mem_cons_of_mem _ hm, hsub, hv⟩
      · rw [if_neg hk]
        obtain ⟨sub2, cl2, h1, h2, h3⟩ := ih hm
        exact ⟨sub2, cl2, List.mem_cons_of_mem _ h1, h2, h3⟩

theorem addToAssoc2_new (l : List (String × List (String × List String)))
    (ka kb v : String) :
    ∃ sub cl, (ka, sub) ∈ addToAssoc2 l ka kb v ∧ (kb, cl) ∈ sub ∧ v ∈ cl := by
  induction l with
  | nil =>
    refine ⟨[(kb, [v])], [v], ?_, ?_, ?_⟩ <;> simp [addToAssoc2]
  | cons p rest ih =>
    obtain ⟨k, s⟩ := p
    unfold addToAssoc2
    by_cases hk : k = ka
    · subst hk
      rw [if_pos rfl]
      obtain ⟨cl, h1, h2⟩ := addToAssoc_new s kb v
      exact ⟨addToAssoc s kb v, cl, List.mem_cons_self _ _, h1, h2⟩
    · rw [if_neg hk]
      obtain ⟨sub, cl, h1, h2, h3⟩ := ih
      exact ⟨sub, cl, List.mem_cons_of_mem _ h1, h2, h3⟩

theorem mem_coursesByDeptSubject (inst : Inst) (course deptName deptId : String)
    (hc : course ∈ inst.courses) (h1 : inst.courseDeptOf course = some deptName)
    (h2 : inst.deptNameToId deptName = some deptId) :
    ∃ sub, (deptId, sub) ∈ coursesByDeptSubject inst ∧
      ∃ cl, ((subjectArea course).getD "UNKNOWN", cl) ∈ sub ∧ course ∈ cl := by
  unfold coursesByDeptSubject
  suffices h : ∀ (cs : List String)
      (acc : List (String × List (String × List String))),
      (course ∈ cs ∨ ∃ sub, (deptId, sub) ∈ acc ∧
        ∃ cl, ((subjectArea course).getD "UNKNOWN", cl) ∈ sub ∧ course ∈ cl) →
      ∃ sub, (deptId, sub) ∈ cs.foldl
          (fun acc course =>
            match inst.courseDeptOf course with
            | some deptName =>
              match inst.deptNameToId deptName with
              | some deptId =>
                addToAssoc2 acc deptId ((subjectArea course).getD "UNKNOWN") course
              | none => acc
            | none => acc)
          acc ∧
        ∃ cl, ((subjectArea course).getD "UNKNOWN", cl) ∈ sub ∧ course ∈ cl by
    exact h inst.courses [] (Or.inl hc)
  intro cs
  induction cs with
  | nil =>
    rintro acc (h | h)
    · exact absurd h (List.not_mem_nil _)
    · exact h
  | cons c0 rest ih =>
    rintro acc (h | h)
    · rcases List.mem_cons.mp h with heq | hmem
      · subst heq
        rw [List.foldl_cons]
        apply ih
        right
        rw [h1]
        dsimp only
        rw [h2]
        dsimp only
        obtain ⟨sub, cl, ha, hb, hcc⟩ :=
          addToAssoc2_new acc deptId ((subjectArea course).getD "UNKNOWN") course
        exact ⟨sub, ha, cl, hb, hcc⟩
      · rw [List.foldl_cons]
        exact ih _ (Or.inl hmem)
    · rw [List.foldl_cons]
      apply ih
      right
      obtain ⟨sub, hsub, cl, hcl, hcc⟩ := h
      cases hcd : inst.courseDeptOf c0 with
      | none =>
        dsimp only
        exact ⟨sub, hsub, cl, hcl, hcc⟩
      | some dn =>
        dsimp only
        cases hdn : inst.deptNameToId dn with
        | none =>
          dsimp only
          exact ⟨sub, hsub, cl, hcl, hcc⟩
        | some di =>
          dsimp only
          obtain ⟨sub2, cl2, ha, hb, hc2⟩ := addToAssoc2_preserve acc di
            ((subjectArea c0).getD "UNKNOWN") c0 deptId
            ((subjectArea course).getD "UNKNOWN") sub cl course hsub hcl hcc
          exact ⟨sub2, ha, cl2, hb, hc2⟩

theorem take_ne_nil_of_ne_nil {l : List α} (hl : l ≠ []) {n : Nat} (hn : 1 ≤ n) :
    l.take n ≠ [] := by
  cases l with
  | nil => exact absurd rfl hl
  | cons a t =>
    cases n with
    | zero => omega
    | succ m => simp

theorem foldl_pairBody_inv (course : String) (l : List String)
    (acc : AssignState × (String → Nat)) (hinv : AssignInv acc.1) :
    AssignInv ((l.foldl
      (fun (a : AssignState × (String → Nat)) te =>
        if course ∈ a.1.teacherCourses te then a
        else (assignTeacher a.1 te course,
          fun x => if x = te then a.2 te + 1 else a.2 x)) acc).1) := by
  induction l generalizing acc with
  | nil => exact hinv
  | cons a l ih =>
    rw [List.foldl_cons]
    apply ih
    by_cases hm : course ∈ acc.1.teacherCourses a
    · rw [if_pos hm]
      exact hinv
    · rw [if_neg hm]
      exact assignTeacher_inv hinv a course

theorem foldl_pairBody_ct_ne (course c0 : String) (l : List String)
    (acc : AssignState × (String → Nat)) (h : acc.1.courseTeachers c0 ≠ []) :
    ((l.foldl
      (fun (a : AssignState × (String → Nat)) te =>
        if course ∈ a.1.teacherCourses te then a
        else (assignTeacher a.1 te course,
          fun x => if x = te then a.2 te + 1 else a.2 x)) acc).1.courseTeachers c0 ≠ []) := by
  induction l generalizing acc with
  | nil => exact h
  | cons a l ih =>
    rw [List.foldl_cons]
    apply ih
    by_cases hm : course ∈ acc.1.teacherCourses a
    · rw [if_pos hm]
      exact h
    · rw [if_neg hm]
      exact assignTeacher_ct_ne h

theorem foldl_pairBody_ct_ne_self (course : String) (l : List String)
    (acc : AssignState × (String → Nat)) (hinv : AssignInv acc.1) (hl : l ≠ []) :
    ((l.foldl
      (fun (a : AssignState × (String → Nat)) te =>
        if course ∈ a.1.teacherCourses te then a
        else (assignTeacher a.1 te course,
          fun x => if x = te then a.2 te + 1 else a.2 x)) acc).1.courseTeachers course
      ≠ []) := by
  cases l with
  | nil => exact absurd rfl hl
  | cons a t =>
    rw [List.foldl_cons]
    apply foldl_pairBody_ct_ne
    by_cases hm : course ∈ acc.1.teacherCourses a
    · rw [if_pos hm]
      exact List.ne_nil_of_mem ((hinv.1 a course).mp hm)
    · rw [if_neg hm]
      exact assignTeacher_ct_ne_self hinv a course

theorem synthCourseStep_inv (pickCount : String → Nat) (expertTeachers : List String)
    (acc : AssignState × (String → Nat)) (course : String) (hinv : AssignInv acc.1) :
    AssignInv ((synthCourseStep pickCount expertTeachers acc course).1) := by
  unfold synthCourseStep
  exact foldl_pairBody_inv course _ acc hinv

theorem synthCourseStep_ct_ne (pickCount : String → Nat)
    (expertTeachers : List String) (acc : AssignState × (String → Nat))
    (course c0 : String) (h : acc.1.courseTeachers c0 ≠ []) :
    ((synthCourseStep pickCount expertTeachers acc course).1.courseTeachers c0 ≠ []) := by
  unfold synthCourseStep
  exact foldl_pairBody_ct_ne course c0 _ acc h

theorem synthCourseStep_ct_ne_self (pickCount : String → Nat)
    (expertTeachers : List String) (acc : AssignState × (String → Nat))
    (course : String) (hinv : AssignInv acc.1) (hexp : expertTeachers ≠ [])
    (hpick : 1 ≤ pickCount course) :
    ((synthCourseStep pickCount expertTeachers acc course).1.courseTeachers course
      ≠ []) := by
  unfold synthCourseStep
  apply foldl_pairBody_ct_ne_self course _ acc hinv
  apply take_ne_nil_of_ne_nil ?_ hpick
  intro he
  apply hexp
  have hlen := length_sortAsc (loadKeyLe acc.2 acc.1) expertTeachers
  rw [he] at hlen
  exact List.eq_nil_of_length_eq_zero hlen.symm

theorem foldl_synthCourse_inv (pickCount : String → Nat)
    (expertTeachers : List String) (courses : List String)
    (acc : AssignState × (String → Nat)) (hinv : AssignInv acc.1) :
    AssignInv ((courses.foldl (synthCourseStep pickCount expertTeachers) acc).1) := by
  induction courses generalizing acc with
  | nil => exact hinv
  | cons c rest ih =>
    rw [List.foldl_cons]
    exact ih _ (synthCourseStep_inv pickCount expertTeachers acc c hinv)

theorem foldl_synthCourse_ct_ne (pickCount : String → Nat)
    (expertTeachers : List String) (courses : List String)
    (acc : AssignState × (String → Nat)) (c0 : String)
    (h : acc.1.courseTeachers c0 ≠ []) :
    ((courses.foldl (synthCourseStep pickCount expertTeachers) acc).1.courseTeachers c0
      ≠ []) := by
  induction courses generalizing acc with
  | nil => exact h
  | cons c rest ih =>
    rw [List.foldl_cons]
    exact ih _ (synthCourseStep_ct_ne pickCount expertTeachers acc c c0 h)

theorem foldl_synthCourse_establishes (pickCount : String → Nat)
    (expertTeachers : List String) (courses : List String)
    (acc : AssignState × (String → Nat)) (course : String) (hc : course ∈ courses)
    (hinv : AssignInv acc.1) (hexp : expertTeachers ≠ [])
    (hpick : ∀ c, 1 ≤ pickCount c) :
    ((courses.foldl (synthCourseStep pickCount expertTeachers) acc).1.courseTeachers
      course ≠ []) := by
  induction courses generalizing acc with
  | nil => exact absurd hc (List.not_mem_nil _)
  | cons c rest ih =>
    rw [List.foldl_cons]
    rcases List.mem_cons.mp hc with heq | hmem
    · subst heq
      exact foldl_synthCourse_ct_ne pickCount expertTeachers rest _ course
        (synthCourseStep_ct_ne_self pickCount expertTeachers acc course hinv hexp
          (hpick course))
    · exact ih _ hmem (synthCourseStep_inv pickCount expertTeachers acc c hinv)

theorem synthSubjectStep_inv (pickCount : String → Nat) (deptTeachers : List String)
    (st : AssignState) (grp : String × List String) (hinv : AssignInv st) :
    AssignInv (synthSubjectStep pickCount deptTeachers st grp) := by
  unfold synthSubjectStep
  exact foldl_synthCourse_inv _ _ _ _ hinv

theorem synthSubjectStep_ct_ne (pickCount : String → Nat)
    (deptTeachers : List String) (st : AssignState) (grp : String × List String)
    (c0 : String) (h : st.courseTeachers c0 ≠ []) :
    (synthSubjectStep pickCount deptTeachers st grp).courseTeachers c0 ≠ [] := by
  unfold synthSubjectStep
  exact foldl_synthCourse_ct_ne _ _ _ _ c0 h

theorem synthSubjectStep_establishes (pickCount : String → Nat)
    (deptTeachers : List String) (st : AssignState) (grp : String × List String)
    (course : String) (hc : course ∈ grp.2) (hinv : AssignInv st)
    (hdt : deptTeachers ≠ []) (hpick : ∀ c, 1 ≤ pickCount c) :
    (synthSubjectStep pickCount deptTeachers st grp).courseTeachers course ≠ [] := by
  unfold synthSubjectStep
  apply foldl_synthCourse_establishes _ _ _ _ course hc hinv ?_ hpick
  by_cases he : deptTeachers.filter (fun te => decide (grp.1 ∈ st.teacherExpertise te))
      = []
  · rw [if_pos he]
    exact hdt
  · rw [if_neg he]
    exact he

theorem foldl_synthSubject_inv (pickCount : String → Nat)
    (deptTeachers : List String) (groups : List (String × List String))
    (st : AssignState) (hinv : AssignInv st) :
    AssignInv (groups.foldl (synthSubjectStep pickCount deptTeachers) st) := by
  induction groups generalizing st with
  | nil => exact hinv
  | cons g rest ih =>
    rw [List.foldl_cons]
    exact ih _ (synthSubjectStep_inv pickCount deptTeachers st g hinv)

theorem foldl_synthSubject_ct_ne (pickCount : String → Nat)
    (deptTeachers : List String) (groups : List (String × List String))
    (st : AssignState) (c0 : String) (h : st.courseTeachers c0 ≠ []) :
    (groups.foldl (synthSubjectStep pickCount deptTeachers) st).courseTeachers c0
      ≠ [] := by
  induction groups generalizing st with
  | nil => exact h
  | cons g rest ih =>
    rw [List.foldl_cons]
    exact ih _ (synthSubjectStep_ct_ne pickCount deptTeachers st g c0 h)

theorem foldl_synthSubject_establishes (pickCount : String → Nat)
    (deptTeachers : List String) (groups : List (String × List String))
    (st : AssignState) (sg : String × List String) (hsg : sg ∈ groups)
    (course : String) (hc : course ∈ sg.2) (hinv : AssignInv st)
    (hdt : deptTeachers ≠ []) (hpick : ∀ c, 1 ≤ pickCount c) :
    (groups.foldl (synthSubjectStep pickCount deptTeachers) st).courseTeachers course
      ≠ [] := by
  induction groups generalizing st with
  | nil => exact absurd hsg (List.not_mem_nil _)
  | cons g rest ih =>
    rw [List.foldl_cons]
    rcases List.mem_cons.mp hsg with heq | hmem
    · subst heq
      exact foldl_synthSubject_ct_ne pickCount deptTeachers rest _ course
        (synthSubjectStep_establishes pickCount deptTeachers st sg course hc hinv
          hdt hpick)
    · exact ih _ hmem (synthSubjectStep_inv pickCount deptTeachers st g hinv)

theorem synthDeptStep_inv (inst : Inst) (fallbackSample : List String → List String)
    (pickCount : String → Nat) (st : AssignState)
    (grp : String × List (String × List String)) (hinv : AssignInv st) :
    AssignInv (synthDeptStep inst fallbackSample pickCount st grp) := by
  unfold synthDeptStep
  dsimp only
  split <;> split
  case isTrue.isTrue => exact foldl_synthSubject_inv _ _ _ _ hinv
  case isTrue.isFalse => exact hinv
  case isFalse.isTrue => exact foldl_synthSubject_inv _ _ _ _ hinv
  case isFalse.isFalse => exact hinv

theorem synthDeptStep_ct_ne (inst : Inst)
    (fallbackSample : List String → List String) (pickCount : String → Nat)
    (st : AssignState) (grp : String × List (String × List String)) (c0 : String)
    (h : st.courseTeachers c0 ≠ []) :
    (synthDeptStep inst fallbackSample pickCount st grp).courseTeachers c0 ≠ [] := by
  unfold synthDeptStep
  dsimp only
  split <;> split
  case isTrue.isTrue => exact foldl_synthSubject_ct_ne _ _ _ _ c0 h
  case isTrue.isFalse => exact h
  case isFalse.isTrue => exact foldl_synthSubject_ct_ne _ _ _ _ c0 h
  case isFalse.isFalse => exact h

theorem synthDeptStep_establishes (inst : Inst)
    (fallbackSample : List String → List String) (pickCount : String → Nat)
    (st : AssignState) (grp : String × List (String × List String))
    (sg : String × List String) (hsg : sg ∈ grp.2) (course : String)
    (hc : course ∈ sg.2) (hinv : AssignInv st)
    (hpool : deptTeachersFor inst grp.1 ≠ [] ∨ inst.teachers ≠ [])
    (hfallback : ∀ l, l ≠ [] → fallbackSample l ≠ [])
    (hpick : ∀ c, 1 ≤ pickCount c) :
    (synthDeptStep inst fallbackSample pickCount st grp).courseTeachers course
      ≠ [] := by
  unfold synthDeptStep
  dsimp only
  by_cases hcond : deptTeachersFor inst grp.1 = [] ∧ inst.teachers ≠ []
  · rw [if_pos hcond]
    have hne := hfallback _ hcond.2
    rw [if_pos hne]
    exact foldl_synthSubject_establishes pickCount _ grp.2 st sg hsg course hc hinv
      hne hpick
  · rw [if_neg hcond]
    have hdt0 : deptTeachersFor inst grp.1 ≠ [] := by
      rcases hpool with h | h
      · exact h
      · intro he
        exact hcond ⟨he, h⟩
    rw [if_pos hdt0]
    exact foldl_synthSubject_establishes pickCount _ grp.2 st sg hsg course hc hinv
      hdt0 hpick

theorem foldl_synthDept_inv (inst : Inst)
    (fallbackSample : List String → List String) (pickCount : String → Nat)
    (groups : List (String × List (String × List String))) (st : AssignState)
    (hinv : AssignInv st) :
    AssignInv (groups.foldl (synthDeptStep inst fallbackSample pickCount) st) := by
  induction groups generalizing st with
  | nil => exact hinv
  | cons g rest ih =>
    rw [List.foldl_cons]
    exact ih _ (synthDeptStep_inv inst fallbackSample pickCount st g hinv)

theorem foldl_synthDept_ct_ne (inst : Inst)
    (fallbackSample : List String → List String) (pickCount : String → Nat)
    (groups : List (String × List (String × List String))) (st : AssignState)
    (c0 : String) (h : st.courseTeachers c0 ≠ []) :
    (groups.foldl (synthDeptStep inst fallbackSample pickCount) st).courseTeachers c0
      ≠ [] := by
  induction groups generalizing st with
  | nil => exact h
  | cons g rest ih =>
    rw [List.foldl_cons]
    exact ih _ (synthDeptStep_ct_ne inst fallbackSample pickCount st g c0 h)

theorem foldl_synthDept_establishes (inst : Inst)
    (fallbackSample : List String → List String) (pickCount : String → Nat)
    (groups : List (String × List (String × List String))) (st : AssignState)
    (grp : String × List (String × List String)) (hgrp : grp ∈ groups)
    (sg : String × List String) (hsg : sg ∈ grp.2) (course : String)
    (hc : course ∈ sg.2) (hinv : AssignInv st)
    (hpool : deptTeachersFor inst grp.1 ≠ [] ∨ inst.teachers ≠ [])
    (hfallback : ∀ l, l ≠ [] → fallbackSample l ≠ [])
    (hpick : ∀ c, 1 ≤ pickCount c) :
    (groups.foldl (synthDeptStep inst fallbackSample pickCount) st).courseTeachers
      course ≠ [] := by
  induction groups generalizing st with
  | nil => exact absurd hgrp (List.not_mem_nil _)
  | cons g rest ih =>
    rw [List.foldl_cons]
    rcases List.mem_cons.mp hgrp with heq | hmem
    · subst heq
      exact foldl_synthDept_ct_ne inst fallbackSample pickCount rest _ course
        (synthDeptStep_establishes inst fallbackSample pickCount st grp sg hsg
          course hc hinv hpool hfallback hpick)
    · exact ih _ hmem (synthDeptStep_inv inst fallbackSample pickCount st g hinv)

/-- Claim C7 (confirmed): after the assignment phase of the loader runs
(inference mode when some prior-assignments row is usable, synthesis mode
otherwise), every course with at least one eligible teacher ends with at
least one assigned teacher (in inference mode: the course has a usable
table row whose teaching department has teachers; in synthesis mode: the
course's department resolves and either it has teachers or the global
pool is non-empty for the random fallback); repeated assignment of an
already-assigned (teacher, course) pair is rejected idempotently, and no
teacher is ever attached to the same course twice (both maps stay
duplicate-free).  The random draws are abstracted by oracles constrained
exactly as the source constrains them (non-empty samples, at least one
pick). -/
theorem expertise_inducer_guarantees (inst : Inst) (table : List AssignRow)
    (sample : AssignRow → List String → List String)
    (fallbackSample : List String → List String) (pickCount : String → Nat)
    (hsample : ∀ r l, l ≠ [] → sample r l ≠ [])
    (hfallback : ∀ l, l ≠ [] → fallbackSample l ≠ [])
    (hpick : ∀ c, 1 ≤ pickCount c) :
    (∀ row ∈ table, rowEligible inst row = true →
      deptTeachersFor inst ((inst.deptNameToId row.faculty).getD "") ≠ [] →
      (loadAssignments inst sample fallbackSample pickCount table).courseTeachers
        row.courseCode ≠ []) ∧
    (assignmentsLoaded inst table = false →
      ∀ course ∈ inst.courses, ∀ deptName deptId,
        inst.courseDeptOf course = some deptName →
        inst.deptNameToId deptName = some deptId →
        (deptTeachersFor inst deptId ≠ [] ∨ inst.teachers ≠ []) →
        (loadAssignments inst sample fallbackSample pickCount table).courseTeachers
          course ≠ []) ∧
    (∀ st te c, assignTeacher (assignTeacher st te c) te c = assignTeacher st te c) ∧
    (∀ te, ((loadAssignments inst sample fallbackSample pickCount
      table).teacherCourses te).Nodup) ∧
    (∀ c, ((loadAssignments inst sample fallbackSample pickCount
      table).courseTeachers c).Nodup) := by
  have hfinalInv : AssignInv (loadAssignments inst sample fallbackSample pickCount
      table) := by
    unfold loadAssignments
    split
    · exact foldl_inferStep_inv inst sample table _ emptyAssignState_inv
    · exact foldl_synthDept_inv inst fallbackSample pickCount _ _
        emptyAssignState_inv
  refine ⟨?_, ?_, fun st te c => assignTeacher_idem st te c,
    fun te => hfinalInv.2.1 te, fun c => hfinalInv.2.2 c⟩
  · intro row hrow helig hdept
    have hld : assignmentsLoaded inst table = true :=
      List.any_eq_true.mpr ⟨row, hrow, helig⟩
    unfold loadAssignments
    rw [if_pos hld]
    exact foldl_inferStep_establishes inst sample table _ emptyAssignState_inv row
      hrow helig hdept hsample
  · intro hld course hcourse deptName deptId h1 h2 hpool
    unfold loadAssignments
    rw [if_neg (by rw [hld]; exact Bool.false_ne_true)]
    obtain ⟨sub, hsub, cl, hcl, hcc⟩ :=
      mem_coursesByDeptSubject inst course deptName deptId hcourse h1 h2
    exact foldl_synthDept_establishes inst fallbackSample pickCount _ _
      (deptId, sub) hsub (((subjectArea course).getD "UNKNOWN"), cl) hcl course hcc
      emptyAssignState_inv hpool hfallback hpick

/-- Witness for claim C7: on the trivial catalog with no prior-assignment
rows, synthesis mode assigns the sole course to the sole teacher. -/
theorem expertise_inducer_guarantees_witness :
    (loadAssignments instT (fun _ l => l.take 2) (fun l => l.take 3) (fun _ => 1)
      []).courseTeachers "MA101" ≠ [] := by
  have h := (expertise_inducer_guarantees instT [] (fun _ l => l.take 2)
    (fun l => l.take 3) (fun _ => 1)
    (fun _ l hl => take_ne_nil_of_ne_nil hl (by omega))
    (fun l hl => take_ne_nil_of_ne_nil hl (by omega))
    (fun _ => Nat.le_refl 1)).2.1
  exact h (by decide) "MA101" (by decide) "D" "1" rfl rfl (Or.inr (by decide))
